import Mathlib

/-!
# MakersTag firmware (`firmware/src/main.cpp`): signal pipeline

Shallow embedding of the firmware's signal-processing pipeline.

* C++ `float`/`double` values are modelled by exact arithmetic in a linearly
  ordered field `α`, so all definitions are computable and can be evaluated at
  `α = ℚ`.  In `updateVisuals`, where rounding decides the channel values written
  and the phase stored, every `float` and `double` operation is followed by its
  IEEE 754 rounding (`toFloat`, `toDouble`: round to nearest, ties to even, with
  unbounded exponent range); in the filters and the distance model the roundings,
  infinities and NaN are outside the model.
* `pow` and `sin` of `<math.h>` are library functions, not code of the
  firmware; the functions that call them take them as parameters.  Statements
  about the true power function instantiate `α = ℝ` and `pow = Real.rpow`.
* Global variables become the fields of `State`; calls into the BLE stack, the
  pixel driver and the console are recorded as a list of `Effect`s, in program
  order.
-/

namespace ESPTag

/-! ## Data model -/

/-- Fields of `class KalmanFilter`: process noise `q`, measurement noise `r`,
estimation error covariance `p`, value `x`. -/
structure KalmanFilter (α : Type) where
  q : α
  r : α
  p : α
  x : α

/-- Calls that leave the pipeline, in the order the firmware issues them. -/
inductive Effect (α : Type) where
  /-- Records `pixels.setPixelColor(0, pixels.Color(r, g, b))`; the channels are `uint8_t`. -/
  | setPixelColor (r g b : Nat)
  /-- Records `pixels.show()`. -/
  | pixelsShow
  /-- Records `delay(ms)`. -/
  | delay (ms : Nat)
  /-- Records a `Serial.println` / `Serial.printf` call (console log, content not modelled). -/
  | serial
  /-- Records `NimBLEDevice::getAdvertising()->start()`. -/
  | advertisingStart
  /-- Records `dtostrf(value, width, prec, distStr)` followed by
  `pDistanceChar->setValue(distStr)` and `pDistanceChar->notify()`. -/
  | distanceNotify (value : α) (width : Int) (prec : Nat)
  /-- Records `itoa(value, rssiStr, 10)` followed by `pRssiChar->setValue(rssiStr)` and
  `pRssiChar->notify()`. -/
  | rssiNotify (value : Int)

/-- Global variables of the firmware that the pipeline reads or writes, together
with the function-local `static float pulse` of `updateVisuals`. -/
structure State (α : Type) where
  deviceConnected : Bool
  measuredPower : α
  pathLossExponent : α
  rssiFilter : KalmanFilter α
  distFilter : KalmanFilter α
  pulse : α

section Defs

variable {α : Type} [LinearOrderedField α]

/-! ## `KalmanFilter` -/

/-- Method `KalmanFilter::update`: returns the returned value and the filter afterwards. -/
def KalmanFilter.update (kf : KalmanFilter α) (measurement : α) : α × KalmanFilter α :=
  let p1 := kf.p + kf.q
  let k := p1 / (p1 + kf.r)
  let x1 := kf.x + k * (measurement - kf.x)
  let p2 := (1 - k) * p1
  (x1, { kf with p := p2, x := x1 })

/-- Method `KalmanFilter::getValue`. -/
def KalmanFilter.getValue (kf : KalmanFilter α) : α := kf.x

/-- Filter state after feeding the measurements `ms` in order, one `update` each. -/
def KalmanFilter.updateAll (kf : KalmanFilter α) (ms : List α) : KalmanFilter α :=
  ms.foldl (fun f m => (f.update m).2) kf

/-! ## Distance model -/

/-- Function `calculateDistance`, with the globals it reads (`measuredPower`,
`pathLossExponent`) and the library function `pow` as arguments. -/
def calculateDistance (pow : α → α → α) (measuredPower pathLossExponent rssi : α) : α :=
  if rssi ≥ 0 then 0.1
  else
    let d := pow 10.0 ((measuredPower - rssi) / (10.0 * pathLossExponent))
    if d < 0.1 then 0.1 else if d > 30.0 then 30.0 else d

/-- Global initialisers of the firmware: the state at process start. -/
def powerUp : State α :=
  { deviceConnected := false
    measuredPower := -55.0
    pathLossExponent := 2.4
    rssiFilter := { q := 0.02, r := 4.0, p := 1.0, x := -60.0 }
    distFilter := { q := 0.01, r := 0.3, p := 1.0, x := 1.0 }
    pulse := 0 }

/-! ## Visual feedback -/

/-- Conversion of a floating value to `int` (C++ truncates toward zero). -/
def truncToInt [FloorRing α] (v : α) : Int :=
  if 0 ≤ v then ⌊v⌋ else ⌈v⌉

/-- Conversion of an integer to `uint8_t` (reduction modulo 256). -/
def toUInt8 (z : Int) : Nat := (z % 256).toNat

/-! ### Floating-point rounding -/

/-- Rounding to the nearest integer, ties to the even one (the IEEE 754 default). -/
def roundNE [FloorRing α] (x : α) : Int :=
  if x - ⌊x⌋ < 1 / 2 then ⌊x⌋
  else if 1 / 2 < x - ⌊x⌋ then ⌊x⌋ + 1
  else if ⌊x⌋ % 2 = 0 then ⌊x⌋ else ⌊x⌋ + 1

/-- Rounding of a positive value to `prec` significant bits. -/
def roundPos [FloorRing α] (prec : Nat) (x : α) : α :=
  (roundNE (x / 2 ^ (Int.log 2 x - ((prec - 1 : Nat) : Int))) : α) *
    2 ^ (Int.log 2 x - ((prec - 1 : Nat) : Int))

/-- Rounding to a binary floating-point format. -/
def roundFloat [FloorRing α] (prec : Nat) (x : α) : α :=
  if 0 < x then roundPos prec x else if x < 0 then -roundPos prec (-x) else 0

/-- Conversion to `float` (IEEE 754 binary32: 24 significant bits). -/
def toFloat [FloorRing α] (x : α) : α := roundFloat 24 x

/-- Rounding of a `double` operation (IEEE 754 binary64: 53 significant bits). -/
def toDouble [FloorRing α] (x : α) : α := roundFloat 53 x

/-- Function `updateVisuals`, with the library function `sin` as an argument.  Returns the
state afterwards (the `static float pulse` may have advanced) and the pixel calls made.
The roundings of the C++ types are kept: `pulse += 0.1` adds the `double` constant 0.1 in
`double` and stores a `float`; the brightness is computed in `double`;
`float ratio = (dist - 1.0) / 2.5` subtracts and divides in `double` and stores a `float`;
`255 * ratio` is a `float` product and `255 * (1.0 - ratio)` a `double` one. -/
def updateVisuals [FloorRing α] (sin : α → α) (st : State α) (dist : α) :
    State α × List (Effect α) :=
  if !st.deviceConnected then
    let pulse := toFloat (toDouble (st.pulse + toDouble 0.1))
    let brightness := toUInt8 (truncToInt (toDouble (toDouble (sin pulse + 1.0) * 80)))
    ({ st with pulse := pulse }, [Effect.setPixelColor 0 0 brightness, Effect.pixelsShow])
  else
    let rg : Int × Int :=
      if dist < 1.0 then (0, 255)
      else if dist < 3.5 then
        let ratio := toFloat (toDouble (toDouble (dist - 1.0) / 2.5))
        (truncToInt (toFloat (255 * ratio)),
          truncToInt (toDouble (255 * toDouble (1.0 - ratio))))
      else (255, 0)
    (st, [Effect.setPixelColor (toUInt8 rg.1) (toUInt8 rg.2) 0, Effect.pixelsShow])

/-! ## Link callbacks -/

/-- Method `CalibCallbacks::onWrite`; `value` is the payload written by the peer (its bytes). -/
def onWrite (st : State α) (value : List Nat) : State α × List (Effect α) :=
  if value.length > 0 then
    ({ st with measuredPower := st.rssiFilter.getValue },
      [Effect.serial, Effect.setPixelColor 0 255 0, Effect.pixelsShow, Effect.delay 200])
  else (st, [])

/-- Method `MyServerCallbacks::onConnect`. -/
def onConnect (st : State α) : State α × List (Effect α) :=
  ({ st with deviceConnected := true }, [Effect.serial])

/-- Method `MyServerCallbacks::onDisconnect`. -/
def onDisconnect (st : State α) : State α × List (Effect α) :=
  ({ st with deviceConnected := false }, [Effect.serial, Effect.advertisingStart])

/-- Recogniser of the re-advertise call in an effect list. -/
def Effect.isAdvertisingStart : Effect α → Bool
  | Effect.advertisingStart => true
  | _ => false

/-- Recogniser of the telemetry calls (distance or signal-strength notification). -/
def Effect.isTelemetry : Effect α → Bool
  | Effect.distanceNotify _ _ _ => true
  | Effect.rssiNotify _ => true
  | _ => false

/-- Recogniser of the calls that write the indicator. -/
def Effect.isPixelWrite : Effect α → Bool
  | Effect.setPixelColor _ _ _ => true
  | Effect.pixelsShow => true
  | _ => false

/-! ## Sampling loop -/

/-- The sampling part of `loop` (lines 161-169): `rssi` starts at `0`; only the first peer
handle is visited (`break`), and `rssi` is overwritten when `ble_gap_conn_rssi` returns `0`,
which is modelled by `connRssi handle = some rssi_val`. -/
def sampleRssi (peerDevices : List Nat) (connRssi : Nat → Option Int) : Int :=
  match peerDevices with
  | [] => 0
  | handle :: _ =>
    match connRssi handle with
    | some rssi_val => rssi_val
    | none => 0

/-- Function `loop`: one tick.  `peerDevices` is what `pServer->getPeerDevices()` returns and
`connRssi` the outcome of `ble_gap_conn_rssi` for a handle. -/
def loop [FloorRing α] (pow : α → α → α) (sin : α → α) (st : State α)
    (peerDevices : List Nat) (connRssi : Nat → Option Int) : State α × List (Effect α) :=
  if st.deviceConnected then
    let rssi := sampleRssi peerDevices connRssi
    if rssi ≠ 0 then
      let u1 := st.rssiFilter.update (rssi : α)
      let smoothRssi := u1.1
      let rawDist := calculateDistance pow st.measuredPower st.pathLossExponent smoothRssi
      let u2 := st.distFilter.update rawDist
      let smoothDist := u2.1
      let v := updateVisuals sin { st with rssiFilter := u1.2, distFilter := u2.2 } smoothDist
      (v.1, v.2 ++ [Effect.distanceNotify smoothDist 1 2,
        Effect.rssiNotify (truncToInt smoothRssi), Effect.serial, Effect.delay 50])
    else (st, [Effect.delay 50])
  else
    let v := updateVisuals sin st 0
    (v.1, v.2 ++ [Effect.delay 50])

/-- Scenario used below: power-up, a connect event, then two ticks in which the read for the
peer handle 1 succeeds with the value 127. -/
def positiveSignalState [FloorRing α] (pow : α → α → α) (sin : α → α) : State α :=
  (loop pow sin (loop pow sin (onConnect powerUp).1 [1] (fun _ => some 127)).1
    [1] (fun _ => some 127)).1

/-- State after consecutive ticks in which the read for the peer handle 1 succeeds with the
given samples, one sample per tick. -/
def runSamples [FloorRing α] (pow : α → α → α) (sin : α → α) (st : State α)
    (samples : List Int) : State α :=
  samples.foldl (fun s0 s => (loop pow sin s0 [1] (fun _ => some s)).1) st

/-- End-to-end scenario: the smoothed distance held after the first `n` of the raw samples
-50, -52, -51, -90, -30, one per tick, starting Connected from the power-up defaults. -/
def scenarioDistance [FloorRing α] (pow : α → α → α) (sin : α → α) (n : Nat) : α :=
  (runSamples pow sin (onConnect powerUp).1
    (([-50, -52, -51, -90, -30] : List Int).take n)).distFilter.getValue

/-- The colour of a `setPixelColor` call, none for any other call. -/
def Effect.colour : Effect α → Option (Nat × Nat × Nat)
  | Effect.setPixelColor r g b => some (r, g, b)
  | _ => none

/-- The colours written to the indicator by a list of calls, in order. -/
def writtenColours (fx : List (Effect α)) : List (Nat × Nat × Nat) :=
  fx.filterMap Effect.colour

/-- The values handed to the distance characteristic by a list of calls, in order. -/
def publishedDistances (fx : List (Effect α)) : List α :=
  fx.filterMap fun e =>
    match e with
    | Effect.distanceNotify v _ _ => some v
    | _ => none

/-- What can happen to the firmware after `setup`: a tick of `loop` (with what the BLE stack
reports in that tick), a link connect or disconnect, a write to the calibration
characteristic. -/
inductive Event where
  | tick (peerDevices : List Nat) (connRssi : Nat → Option Int)
  | connect
  | disconnect
  | calibWrite (value : List Nat)

/-- One event handled by the function or callback it belongs to. -/
def step [FloorRing α] (pow : α → α → α) (sin : α → α) (st : State α) :
    Event → State α × List (Effect α)
  | Event.tick peerDevices connRssi => loop pow sin st peerDevices connRssi
  | Event.connect => onConnect st
  | Event.disconnect => onDisconnect st
  | Event.calibWrite value => onWrite st value

/-- State after a finite sequence of events, handled one after the other. -/
def run [FloorRing α] (pow : α → α → α) (sin : α → α) (st : State α)
    (evs : List Event) : State α :=
  evs.foldl (fun s0 ev => (step pow sin s0 ev).1) st

end Defs

/-! ## Floating-point rounding: monotone, exact on representable values -/

section RoundingBasic
variable {α : Type} [LinearOrderedField α]

theorem two_zpow_pos (k : Int) : (0 : α) < 2 ^ k := zpow_pos (by norm_num) k

end RoundingBasic

section Rounding
variable {α : Type} [LinearOrderedField α] [FloorRing α]

theorem roundNE_bounds (x : α) : ⌊x⌋ ≤ roundNE x ∧ roundNE x ≤ ⌊x⌋ + 1 := by
  unfold roundNE
  split_ifs <;> omega

theorem roundNE_intCast (n : Int) : roundNE (n : α) = n := by
  unfold roundNE
  simp

theorem roundNE_mono {x y : α} (h : x ≤ y) : roundNE x ≤ roundNE y := by
  have hf : ⌊x⌋ ≤ ⌊y⌋ := Int.floor_mono h
  rcases lt_or_eq_of_le hf with hlt | heq
  · have := (roundNE_bounds x).2
    have := (roundNE_bounds y).1
    omega
  · unfold roundNE
    rw [heq]
    have hxy : x - ⌊y⌋ ≤ y - ⌊y⌋ := by linarith
    split_ifs <;> first | omega | (exfalso; linarith)

theorem roundNE_eq_of_abs_lt {x : α} {n : Int} (h : |x - n| < 1 / 2) : roundNE x = n := by
  rw [abs_lt] at h
  obtain ⟨h1, h2⟩ := h
  by_cases hx : (n : α) ≤ x
  · have hfl : ⌊x⌋ = n := by
      rw [Int.floor_eq_iff]
      constructor
      · exact hx
      · linarith
    unfold roundNE
    rw [hfl, if_pos h2]
  · have hx1 : x < n := not_le.mp hx
    have hfl : ⌊x⌋ = n - 1 := by
      rw [Int.floor_eq_iff]
      push_cast
      constructor <;> linarith
    unfold roundNE
    rw [hfl]
    push_cast
    have a1 : ¬ (x - ((n : α) - 1) < 1 / 2) := by linarith
    have a2 : 1 / 2 < x - ((n : α) - 1) := by linarith
    rw [if_neg a1, if_pos a2]
    omega

/-- The binary exponent of a positive value is determined by the binade that holds it. -/
theorem log_two_eq {x : α} {e : Int} (h1 : (2 : α) ^ e ≤ x) (h2 : x < (2 : α) ^ (e + 1)) :
    Int.log 2 x = e := by
  have hx : 0 < x := lt_of_lt_of_le (two_zpow_pos e) h1
  have a1 : e ≤ Int.log 2 x := by
    rw [← Int.zpow_le_iff_le_log (by norm_num) hx]
    exact_mod_cast h1
  have a2 : Int.log 2 x < e + 1 := by
    rw [← Int.lt_zpow_iff_log_lt (by norm_num) hx]
    exact_mod_cast h2
  omega

theorem log_two_bounds {x : α} (hx : 0 < x) :
    (2 : α) ^ Int.log 2 x ≤ x ∧ x < (2 : α) ^ (Int.log 2 x + 1) := by
  have h1 : ((2 : Nat) : α) ^ Int.log 2 x ≤ x := Int.zpow_log_le_self (by norm_num) hx
  have h2 : x < ((2 : Nat) : α) ^ (Int.log 2 x + 1) :=
    Int.lt_zpow_succ_log_self (by norm_num) x
  exact ⟨by exact_mod_cast h1, by exact_mod_cast h2⟩

/-- The significand of a positive value, scaled to `q + 1` bits, lies in `[2^q, 2^(q+1))`. -/
theorem scaled_bounds (q : Nat) {x : α} (hx : 0 < x) :
    (((2 : Int) ^ q : Int) : α) ≤ x / 2 ^ (Int.log 2 x - (q : Int)) ∧
      x / 2 ^ (Int.log 2 x - (q : Int)) < (((2 : Int) ^ (q + 1) : Int) : α) := by
  obtain ⟨h1, h2⟩ := log_two_bounds hx
  have hs : (0 : α) < 2 ^ (Int.log 2 x - (q : Int)) := two_zpow_pos _
  have e1 : (((2 : Int) ^ q : Int) : α) * 2 ^ (Int.log 2 x - (q : Int)) = 2 ^ Int.log 2 x := by
    push_cast
    rw [← zpow_natCast, ← zpow_add₀ (by norm_num)]
    congr 1
    omega
  have e2 : (((2 : Int) ^ (q + 1) : Int) : α) * 2 ^ (Int.log 2 x - (q : Int)) =
      2 ^ (Int.log 2 x + 1) := by
    push_cast
    rw [← zpow_natCast, ← zpow_add₀ (by norm_num)]
    congr 1
    push_cast
    omega
  constructor
  · rw [le_div_iff₀ hs, e1]
    exact h1
  · rw [div_lt_iff₀ hs, e2]
    exact h2

/-- Rounding a positive value keeps it inside the closure of its binade. -/
theorem roundPos_bounds (p : Nat) {x : α} (hx : 0 < x) :
    (2 : α) ^ Int.log 2 x ≤ roundPos p x ∧ roundPos p x ≤ (2 : α) ^ (Int.log 2 x + 1) := by
  obtain ⟨h1, h2⟩ := scaled_bounds (p - 1) hx
  have hs : (0 : α) < 2 ^ (Int.log 2 x - ((p - 1 : Nat) : Int)) := two_zpow_pos _
  have n1 : (2 : Int) ^ (p - 1) ≤ roundNE (x / 2 ^ (Int.log 2 x - ((p - 1 : Nat) : Int))) := by
    have := roundNE_mono h1
    rwa [roundNE_intCast] at this
  have n2 : roundNE (x / 2 ^ (Int.log 2 x - ((p - 1 : Nat) : Int))) ≤ (2 : Int) ^ (p - 1 + 1) := by
    have := roundNE_mono (le_of_lt h2)
    rwa [roundNE_intCast] at this
  have c1 : (((2 : Int) ^ (p - 1) : Int) : α) ≤
      (roundNE (x / 2 ^ (Int.log 2 x - ((p - 1 : Nat) : Int))) : α) := by exact_mod_cast n1
  have c2 : (roundNE (x / 2 ^ (Int.log 2 x - ((p - 1 : Nat) : Int))) : α) ≤
      (((2 : Int) ^ (p - 1 + 1) : Int) : α) := by exact_mod_cast n2
  have e1 : (((2 : Int) ^ (p - 1) : Int) : α) * 2 ^ (Int.log 2 x - ((p - 1 : Nat) : Int)) =
      2 ^ Int.log 2 x := by
    push_cast
    rw [← zpow_natCast, ← zpow_add₀ (by norm_num)]
    congr 1
    omega
  have e2 : (((2 : Int) ^ (p - 1 + 1) : Int) : α) *
      2 ^ (Int.log 2 x - ((p - 1 : Nat) : Int)) = 2 ^ (Int.log 2 x + 1) := by
    push_cast
    rw [← zpow_natCast, ← zpow_add₀ (by norm_num)]
    congr 1
    push_cast
    omega
  unfold roundPos
  constructor
  · rw [← e1]
    exact mul_le_mul_of_nonneg_right c1 (le_of_lt hs)
  · rw [← e2]
    exact mul_le_mul_of_nonneg_right c2 (le_of_lt hs)

theorem roundPos_pos (p : Nat) {x : α} (hx : 0 < x) : 0 < roundPos p x :=
  lt_of_lt_of_le (two_zpow_pos _) (roundPos_bounds p hx).1

/-- Rounding of positive values is monotone. -/
theorem roundPos_mono (p : Nat) {x y : α} (hx : 0 < x) (h : x ≤ y) :
    roundPos p x ≤ roundPos p y := by
  have hy : 0 < y := lt_of_lt_of_le hx h
  have hl : Int.log 2 x ≤ Int.log 2 y := Int.log_mono_right hx h
  rcases lt_or_eq_of_le hl with hlt | heq
  · have a1 := (roundPos_bounds p hx).2
    have a2 := (roundPos_bounds p hy).1
    have a3 : (2 : α) ^ (Int.log 2 x + 1) ≤ 2 ^ Int.log 2 y :=
      zpow_le_zpow_right₀ (by norm_num) (by omega)
    exact le_trans a1 (le_trans a3 a2)
  · unfold roundPos
    rw [heq]
    have hs : (0 : α) < 2 ^ (Int.log 2 y - ((p - 1 : Nat) : Int)) := two_zpow_pos _
    apply mul_le_mul_of_nonneg_right _ (le_of_lt hs)
    have : roundNE (x / 2 ^ (Int.log 2 y - ((p - 1 : Nat) : Int))) ≤
        roundNE (y / 2 ^ (Int.log 2 y - ((p - 1 : Nat) : Int))) :=
      roundNE_mono (div_le_div_of_nonneg_right h (le_of_lt hs))
    exact_mod_cast this

/-- Evaluation of the rounding of a positive value from its binade and nearest significand. -/
theorem roundPos_eq (p : Nat) {x : α} (e n : Int) (h1 : (2 : α) ^ e ≤ x)
    (h2 : x < (2 : α) ^ (e + 1))
    (h3 : |x / 2 ^ (e - ((p - 1 : Nat) : Int)) - n| < 1 / 2) :
    roundPos p x = n * 2 ^ (e - ((p - 1 : Nat) : Int)) := by
  unfold roundPos
  rw [log_two_eq h1 h2, roundNE_eq_of_abs_lt h3]

/-- A positive value `m * 2^k` whose significand `m` has at most `p` bits is not changed. -/
theorem roundPos_fix (p : Nat) (m : Nat) (k : Int) (hm0 : 0 < m) (hm : m < 2 ^ (p - 1 + 1)) :
    roundPos p ((m : α) * 2 ^ k) = (m : α) * 2 ^ k := by
  have hk : (0 : α) < 2 ^ k := two_zpow_pos k
  have hx : (0 : α) < (m : α) * 2 ^ k := mul_pos (by exact_mod_cast hm0) hk
  obtain ⟨b1, _⟩ := log_two_bounds hx
  have hlt : (2 : α) ^ Int.log 2 ((m : α) * 2 ^ k) < 2 ^ (((p - 1 + 1 : Nat) : Int) + k) := by
    have c : (m : α) < ((2 ^ (p - 1 + 1) : Nat) : α) := by exact_mod_cast hm
    have : (m : α) * 2 ^ k < 2 ^ (((p - 1 + 1 : Nat) : Int) + k) := by
      rw [zpow_add₀ (by norm_num), zpow_natCast]
      push_cast at c
      exact mul_lt_mul_of_pos_right c hk
    exact lt_of_le_of_lt b1 this
  have hexp : Int.log 2 ((m : α) * 2 ^ k) < ((p - 1 + 1 : Nat) : Int) + k :=
    (zpow_lt_zpow_iff_right₀ (by norm_num : (1 : α) < 2)).mp hlt
  obtain ⟨j, hj⟩ : ∃ j : Nat, (j : Int) = k - (Int.log 2 ((m : α) * 2 ^ k) - ((p - 1 : Nat) : Int)) :=
    ⟨(k - (Int.log 2 ((m : α) * 2 ^ k) - ((p - 1 : Nat) : Int))).toNat, by
      rw [Int.toNat_of_nonneg]
      push_cast at hexp
      omega⟩
  have hdiv : (m : α) * 2 ^ k / 2 ^ (Int.log 2 ((m : α) * 2 ^ k) - ((p - 1 : Nat) : Int)) =
      (((m : Int) * 2 ^ j : Int) : α) := by
    rw [mul_div_assoc, ← zpow_sub₀ (by norm_num), ← hj]
    push_cast
    rw [zpow_natCast]
  unfold roundPos
  rw [hdiv, roundNE_intCast]
  push_cast
  rw [mul_assoc, ← zpow_natCast, ← zpow_add₀ (by norm_num), hj]
  congr 2
  omega

/-- The rounding of a positive value is a significand of at most `p` bits (or the next power
of two) times the unit of its binade. -/
theorem roundPos_repr (p : Nat) {x : α} (hx : 0 < x) :
    ∃ m : Nat, 0 < m ∧ m ≤ 2 ^ (p - 1 + 1) ∧
      roundPos p x = (m : α) * 2 ^ (Int.log 2 x - ((p - 1 : Nat) : Int)) := by
  obtain ⟨h1, h2⟩ := scaled_bounds (p - 1) hx
  have n1 : (2 : Int) ^ (p - 1) ≤ roundNE (x / 2 ^ (Int.log 2 x - ((p - 1 : Nat) : Int))) := by
    have := roundNE_mono h1
    rwa [roundNE_intCast] at this
  have n2 : roundNE (x / 2 ^ (Int.log 2 x - ((p - 1 : Nat) : Int))) ≤ (2 : Int) ^ (p - 1 + 1) := by
    have := roundNE_mono (le_of_lt h2)
    rwa [roundNE_intCast] at this
  have n0 : (0 : Int) < (2 : Int) ^ (p - 1) := by positivity
  refine ⟨(roundNE (x / 2 ^ (Int.log 2 x - ((p - 1 : Nat) : Int)))).toNat, by omega, ?_, ?_⟩
  · zify
    rw [Int.toNat_of_nonneg (by omega)]
    exact n2
  · unfold roundPos
    congr 1
    have hc : (((roundNE (x / 2 ^ (Int.log 2 x - ((p - 1 : Nat) : Int)))).toNat : Int)) =
        roundNE (x / 2 ^ (Int.log 2 x - ((p - 1 : Nat) : Int))) :=
      Int.toNat_of_nonneg (by omega)
    conv_lhs => rw [← hc]
    exact Int.cast_natCast _

theorem roundFloat_of_pos (p : Nat) {x : α} (hx : 0 < x) : roundFloat p x = roundPos p x := by
  unfold roundFloat
  rw [if_pos hx]

theorem roundFloat_of_neg (p : Nat) {x : α} (hx : x < 0) :
    roundFloat p x = -roundPos p (-x) := by
  unfold roundFloat
  rw [if_neg (not_lt.mpr (le_of_lt hx)), if_pos hx]

theorem roundFloat_zero (p : Nat) : roundFloat p (0 : α) = 0 := by
  unfold roundFloat
  simp

theorem roundFloat_nonneg (p : Nat) {x : α} (hx : 0 ≤ x) : 0 ≤ roundFloat p x := by
  rcases lt_or_eq_of_le hx with h | h
  · rw [roundFloat_of_pos p h]
    exact le_of_lt (roundPos_pos p h)
  · rw [← h, roundFloat_zero]

theorem roundFloat_nonpos (p : Nat) {x : α} (hx : x ≤ 0) : roundFloat p x ≤ 0 := by
  rcases lt_or_eq_of_le hx with h | h
  · rw [roundFloat_of_neg p h]
    have := roundPos_pos p (neg_pos.mpr h)
    linarith
  · rw [h, roundFloat_zero]

/-- Rounding to a floating-point format is monotone. -/
theorem roundFloat_mono (p : Nat) {x y : α} (h : x ≤ y) : roundFloat p x ≤ roundFloat p y := by
  rcases lt_trichotomy 0 x with hx | hx | hx
  · rw [roundFloat_of_pos p hx, roundFloat_of_pos p (lt_of_lt_of_le hx h)]
    exact roundPos_mono p hx h
  · rw [← hx, roundFloat_zero]
    exact roundFloat_nonneg p (by rw [hx]; exact h)
  · rcases lt_or_le y 0 with hy | hy
    · rw [roundFloat_of_neg p hx, roundFloat_of_neg p hy]
      have := roundPos_mono p (neg_pos.mpr hy) (neg_le_neg h)
      linarith
    · exact le_trans (roundFloat_nonpos p (le_of_lt hx)) (roundFloat_nonneg p hy)

/-- A value `m * 2^k` whose significand `m` has at most `p` bits is representable. -/
theorem roundFloat_fix (p : Nat) (m : Nat) (k : Int) (hm : m < 2 ^ (p - 1 + 1)) (x : α)
    (hx : x = (m : α) * 2 ^ k) : roundFloat p x = x := by
  rcases Nat.eq_zero_or_pos m with h0 | h0
  · subst h0
    rw [hx]
    simp [roundFloat_zero]
  · have hpos : (0 : α) < (m : α) * 2 ^ k := mul_pos (by exact_mod_cast h0) (two_zpow_pos k)
    rw [hx, roundFloat_of_pos p hpos, roundPos_fix p m k h0 hm]

/-- Evaluation of the rounding of a positive value from its binade and nearest significand. -/
theorem roundFloat_eq (p : Nat) (x : α) (e n : Int) (y : α) (h1 : (2 : α) ^ e ≤ x)
    (h2 : x < (2 : α) ^ (e + 1))
    (h3 : |x / 2 ^ (e - ((p - 1 : Nat) : Int)) - n| < 1 / 2)
    (hy : y = n * 2 ^ (e - ((p - 1 : Nat) : Int))) : roundFloat p x = y := by
  rw [roundFloat_of_pos p (lt_of_lt_of_le (two_zpow_pos e) h1), roundPos_eq p e n h1 h2 h3, hy]

/-- There is no `float` strictly between 1 and `1 + 2^-23`. -/
theorem toFloat_gap_above_one {x : α} (h : toFloat x = x) (h1 : 1 < x) :
    1 + (2 : α) ^ (-23 : Int) ≤ x := by
  have hx : 0 < x := lt_trans zero_lt_one h1
  unfold toFloat at h
  rw [roundFloat_of_pos 24 hx] at h
  obtain ⟨b1, _⟩ := log_two_bounds hx
  have he : 0 ≤ Int.log 2 x := by
    rw [← Int.zpow_le_iff_le_log (by norm_num) hx]
    simpa using le_of_lt h1
  rcases lt_or_eq_of_le he with hpos | h0
  · have : (2 : α) ^ (1 : Int) ≤ 2 ^ Int.log 2 x := zpow_le_zpow_right₀ (by norm_num) (by omega)
    have hsmall : (2 : α) ^ (-23 : Int) ≤ 1 := by
      rw [zpow_neg]
      exact inv_le_one_of_one_le₀ (one_le_zpow₀ (by norm_num) (by norm_num))
    have h2 : (2 : α) ≤ x := by
      rw [zpow_one] at this
      exact le_trans this b1
    linarith
  · obtain ⟨m, _, _, hrep⟩ := roundPos_repr 24 hx
    rw [h, ← h0] at hrep
    have hu : (0 : α) < 2 ^ (-23 : Int) := two_zpow_pos _
    have e23 : (0 : Int) - ((24 - 1 : Nat) : Int) = -23 := by norm_num
    rw [e23] at hrep
    have hinv : (2 : α) ^ (23 : Nat) * 2 ^ (-23 : Int) = 1 := by
      rw [← zpow_natCast, ← zpow_add₀ (by norm_num)]
      norm_num
    have hm : (2 : α) ^ (23 : Nat) < (m : α) := by
      by_contra hle
      have hle1 : (m : α) ≤ 2 ^ (23 : Nat) := not_lt.mp hle
      have := mul_le_mul_of_nonneg_right hle1 (le_of_lt hu)
      rw [hinv, ← hrep] at this
      linarith
    have hm1 : 2 ^ 23 + 1 ≤ m := by
      have : (2 : Nat) ^ 23 < m := by exact_mod_cast hm
      omega
    have hm2 : ((2 : α) ^ (23 : Nat) + 1) ≤ (m : α) := by exact_mod_cast hm1
    have := mul_le_mul_of_nonneg_right hm2 (le_of_lt hu)
    rw [add_mul, hinv, one_mul, ← hrep] at this
    exact this

/-- Rounding is idempotent: a rounded value is representable. -/
theorem roundFloat_idem (p : Nat) (x : α) : roundFloat p (roundFloat p x) = roundFloat p x := by
  have key : ∀ z : α, 0 < z → roundFloat p (roundPos p z) = roundPos p z := by
    intro z hz
    obtain ⟨m, _, hm, hrep⟩ := roundPos_repr p hz
    rcases lt_or_eq_of_le hm with hlt | heq
    · exact roundFloat_fix p m _ hlt _ hrep
    · have h1 : (1 : Nat) < 2 ^ (p - 1 + 1) := Nat.one_lt_two_pow (by omega)
      refine roundFloat_fix p 1
        (((p - 1 + 1 : Nat) : Int) + (Int.log 2 z - ((p - 1 : Nat) : Int))) h1 _ ?_
      rw [hrep, heq, zpow_add₀ (by norm_num), zpow_natCast]
      push_cast
      ring
  rcases lt_trichotomy 0 x with hx | hx | hx
  · rw [roundFloat_of_pos p hx]
    exact key x hx
  · rw [← hx, roundFloat_zero, roundFloat_zero]
  · rw [roundFloat_of_neg p hx]
    have hpos := roundPos_pos p (neg_pos.mpr hx)
    have hk := key (-x) (neg_pos.mpr hx)
    rw [roundFloat_of_pos p hpos] at hk
    rw [roundFloat_of_neg p (neg_lt_zero.mpr hpos), neg_neg, hk]

theorem toFloat_idem (x : α) : toFloat (toFloat x) = toFloat x := roundFloat_idem 24 x

theorem toFloat_mono {x y : α} (h : x ≤ y) : toFloat x ≤ toFloat y := roundFloat_mono 24 h

theorem toDouble_mono {x y : α} (h : x ≤ y) : toDouble x ≤ toDouble y := roundFloat_mono 53 h

/-- A value `m * 2^k` with `m < 2^24` is a `float`. -/
theorem toFloat_fix (m : Nat) (k : Int) (hm : m < 2 ^ 24) (x : α) (hx : x = (m : α) * 2 ^ k) :
    toFloat x = x :=
  roundFloat_fix 24 m k hm x hx

/-- A value `m * 2^k` with `m < 2^53` is a `double`. -/
theorem toDouble_fix (m : Nat) (k : Int) (hm : m < 2 ^ 53) (x : α) (hx : x = (m : α) * 2 ^ k) :
    toDouble x = x :=
  roundFloat_fix 53 m k hm x hx

/-- Evaluation of a conversion to `float`: `x` lies in the binade of `2^e` and `n` is the nearest
multiple of the unit `2^(e-23)`. -/
theorem toFloat_eval (x : α) (e n : Int) (y : α) (h1 : (2 : α) ^ e ≤ x)
    (h2 : x < (2 : α) ^ (e + 1)) (h3 : |x / 2 ^ (e - 23) - n| < 1 / 2)
    (hy : y = n * 2 ^ (e - 23)) : toFloat x = y :=
  roundFloat_eq 24 x e n y h1 h2 h3 hy

/-- Evaluation of a rounding to `double`: `x` lies in the binade of `2^e` and `n` is the nearest
multiple of the unit `2^(e-52)`. -/
theorem toDouble_eval (x : α) (e n : Int) (y : α) (h1 : (2 : α) ^ e ≤ x)
    (h2 : x < (2 : α) ^ (e + 1)) (h3 : |x / 2 ^ (e - 52) - n| < 1 / 2)
    (hy : y = n * 2 ^ (e - 52)) : toDouble x = y :=
  roundFloat_eq 53 x e n y h1 h2 h3 hy

/-- A value `m * 2^k` with `m < 2^24` is a `float`; form with the result named. -/
theorem toFloat_fix_eq (m : Nat) (k : Int) (hm : m < 2 ^ 24) (x y : α)
    (hx : x = (m : α) * 2 ^ k) (hy : y = (m : α) * 2 ^ k) : toFloat x = y := by
  rw [hy, ← hx]
  exact toFloat_fix m k hm x hx

/-- A value `m * 2^k` with `m < 2^53` is a `double`; form with the result named. -/
theorem toDouble_fix_eq (m : Nat) (k : Int) (hm : m < 2 ^ 53) (x y : α)
    (hx : x = (m : α) * 2 ^ k) (hy : y = (m : α) * 2 ^ k) : toDouble x = y := by
  rw [hy, ← hx]
  exact toDouble_fix m k hm x hx

end Rounding

/-! ## Distance model: range, monotonicity, unit distance -/

section DistanceModel

variable {α : Type} [LinearOrderedField α]

/-- The result of `calculateDistance` always lies in `[0.1, 30.0]`. -/
theorem calculateDistance_bounds (pow : α → α → α) (measuredPower pathLossExponent rssi : α) :
    0.1 ≤ calculateDistance pow measuredPower pathLossExponent rssi ∧
      calculateDistance pow measuredPower pathLossExponent rssi ≤ 30.0 := by
  simp only [calculateDistance]
  split_ifs with h0 h1 h2
  · norm_num
  · norm_num
  · norm_num
  · exact ⟨not_lt.mp h1, not_lt.mp h2⟩

/-- C1: for every smoothed signal value and every reference strength (and every path-loss
exponent and every `pow`), `calculateDistance` returns a value `d` with `0.1 ≤ d ≤ 30.0`. -/
theorem calculateDistance_range (pow : α → α → α) (measuredPower pathLossExponent rssi : α) :
    0.1 ≤ calculateDistance pow measuredPower pathLossExponent rssi ∧
      calculateDistance pow measuredPower pathLossExponent rssi ≤ 30.0 :=
  calculateDistance_bounds pow measuredPower pathLossExponent rssi

/-- Clamping to `[0.1, 30.0]`, as done by the last line of `calculateDistance`, is monotone. -/
theorem clamp_mono {a b : α} (h : a ≤ b) :
    (if a < 0.1 then (0.1 : α) else if a > 30.0 then 30.0 else a) ≤
      (if b < 0.1 then (0.1 : α) else if b > 30.0 then 30.0 else b) := by
  have h1 : (0.1 : α) ≤ 30.0 := by norm_num
  split_ifs with ha hb hb2 hb hb2 ha2 hb hb2 <;> simp only [not_lt, gt_iff_lt] at * <;>
    first
      | exact le_refl _
      | assumption
      | exact h1
      | exact absurd (lt_of_le_of_lt h ‹b < 0.1›) (not_lt.mpr ‹(0.1 : α) ≤ a›)
      | exact absurd (lt_of_lt_of_le ‹(30.0 : α) < a› h) (not_lt.mpr ‹b ≤ 30.0›)

/-- C2: `calculateDistance` is monotonically non-increasing in its argument, for every
reference strength and every positive path-loss exponent (the firmware uses 2.4), including
pairs that straddle 0; `pow` is only assumed monotone in the exponent for base 10. -/
theorem calculateDistance_antitone (pow : α → α → α)
    (hpow : ∀ a b : α, a ≤ b → pow 10.0 a ≤ pow 10.0 b)
    (measuredPower pathLossExponent : α) (hn : 0 < pathLossExponent)
    (s1 s2 : α) (h : s1 ≤ s2) :
    calculateDistance pow measuredPower pathLossExponent s2 ≤
      calculateDistance pow measuredPower pathLossExponent s1 := by
  by_cases h2 : s2 ≥ 0
  · have hfloor : calculateDistance pow measuredPower pathLossExponent s2 = 0.1 := by
      simp only [calculateDistance, if_pos h2]
    rw [hfloor]
    exact (calculateDistance_bounds pow measuredPower pathLossExponent s1).1
  · have h1 : ¬ s1 ≥ 0 := fun h1 => h2 (le_trans h1 h)
    simp only [calculateDistance, if_neg h1, if_neg h2]
    apply clamp_mono
    apply hpow
    have hden : (0 : α) < 10.0 * pathLossExponent := by
      have : (0 : α) < 10.0 := by norm_num
      exact mul_pos this hn
    exact div_le_div_of_nonneg_right (by linarith) (le_of_lt hden)

/-- Witness of C2 with the real power function: reference strength -55, exponent 2.4,
signals -60 ≤ -50. -/
theorem calculateDistance_antitone_witness :
    (-60 : ℝ) ≤ -50 ∧
      calculateDistance (fun b e : ℝ => b ^ e) (-55) 2.4 (-50) ≤
        calculateDistance (fun b e : ℝ => b ^ e) (-55) 2.4 (-60) :=
  ⟨by norm_num,
    calculateDistance_antitone (fun b e : ℝ => b ^ e)
      (fun _ _ hab => Real.rpow_le_rpow_of_exponent_le (by norm_num) hab)
      (-55) 2.4 (by norm_num) (-60) (-50) (by norm_num)⟩

/-- C3 fails as stated: with a reference strength that is not negative (here 5, exponent 2.4)
the floor branch `rssi >= 0` answers 0.1, not 1.0. -/
theorem calculateDistance_at_reference_counterexample :
    calculateDistance (fun b e : ℝ => b ^ e) 5 2.4 5 = 0.1 ∧
      calculateDistance (fun b e : ℝ => b ^ e) 5 2.4 5 ≠ 1.0 := by
  have h : calculateDistance (fun b e : ℝ => b ^ e) 5 2.4 5 = 0.1 := by
    simp [calculateDistance]
  refine ⟨h, ?_⟩
  rw [h]
  norm_num

/-- C3 (amended): for every path-loss exponent > 0 and every reference strength below 0,
`calculateDistance` at a smoothed signal equal to the reference strength returns exactly 1.0
(`pow` is only assumed to satisfy `pow(10, 0) = 1`). -/
theorem calculateDistance_at_reference (pow : α → α → α) (hpow : pow 10.0 0 = 1)
    (measuredPower pathLossExponent : α) (_hn : 0 < pathLossExponent)
    (hneg : measuredPower < 0) :
    calculateDistance pow measuredPower pathLossExponent measuredPower = 1.0 := by
  have h0 : ¬ measuredPower ≥ 0 := not_le.mpr hneg
  simp only [calculateDistance, if_neg h0, sub_self, zero_div, hpow]
  norm_num

/-- Witness of C3 (amended) with the real power function and the firmware defaults. -/
theorem calculateDistance_at_reference_witness :
    calculateDistance (fun b e : ℝ => b ^ e) (-55) 2.4 (-55) = 1.0 :=
  calculateDistance_at_reference (fun b e : ℝ => b ^ e) (by norm_num) (-55) 2.4
    (by norm_num) (by norm_num)

end DistanceModel

/-! ## Smoother: covariance and estimate bounds -/

section Smoother

variable {α : Type} [LinearOrderedField α]

theorem KalmanFilter.update_q (kf : KalmanFilter α) (m : α) : (kf.update m).2.q = kf.q := rfl

theorem KalmanFilter.update_r (kf : KalmanFilter α) (m : α) : (kf.update m).2.r = kf.r := rfl

/-- The gain `k` of one `update` lies strictly between 0 and 1. -/
theorem KalmanFilter.gain_bounds (kf : KalmanFilter α) (hq : 0 < kf.q) (hr : 0 < kf.r)
    (hp : 0 ≤ kf.p) :
    0 < (kf.p + kf.q) / (kf.p + kf.q + kf.r) ∧ (kf.p + kf.q) / (kf.p + kf.q + kf.r) < 1 := by
  have h1 : 0 < kf.p + kf.q := by linarith
  have h2 : 0 < kf.p + kf.q + kf.r := by linarith
  exact ⟨div_pos h1 h2, (div_lt_one h2).mpr (by linarith)⟩

/-- One `update` keeps the error covariance non-negative. -/
theorem KalmanFilter.update_p_nonneg (kf : KalmanFilter α) (hq : 0 < kf.q) (hr : 0 < kf.r)
    (hp : 0 ≤ kf.p) (m : α) : 0 ≤ (kf.update m).2.p := by
  obtain ⟨_, hk1⟩ := kf.gain_bounds hq hr hp
  have h1 : 0 < kf.p + kf.q := by linarith
  show 0 ≤ (1 - (kf.p + kf.q) / (kf.p + kf.q + kf.r)) * (kf.p + kf.q)
  exact mul_nonneg (by linarith) (le_of_lt h1)

/-- One `update` leaves the estimate between the previous estimate and the measurement,
stated with arbitrary bounds `lo`, `hi` enclosing both. -/
theorem KalmanFilter.update_x_between (kf : KalmanFilter α) (hq : 0 < kf.q) (hr : 0 < kf.r)
    (hp : 0 ≤ kf.p) (m lo hi : α) (hx : lo ≤ kf.x ∧ kf.x ≤ hi) (hm : lo ≤ m ∧ m ≤ hi) :
    lo ≤ (kf.update m).2.x ∧ (kf.update m).2.x ≤ hi := by
  obtain ⟨hk0, hk1⟩ := kf.gain_bounds hq hr hp
  show lo ≤ kf.x + (kf.p + kf.q) / (kf.p + kf.q + kf.r) * (m - kf.x) ∧
    kf.x + (kf.p + kf.q) / (kf.p + kf.q + kf.r) * (m - kf.x) ≤ hi
  generalize (kf.p + kf.q) / (kf.p + kf.q + kf.r) = k at hk0 hk1
  have e : kf.x + k * (m - kf.x) = (1 - k) * kf.x + k * m := by ring
  rw [e]
  have hk1p : 0 < 1 - k := by linarith
  constructor
  · have a1 : (1 - k) * lo ≤ (1 - k) * kf.x := mul_le_mul_of_nonneg_left hx.1 (le_of_lt hk1p)
    have a2 : k * lo ≤ k * m := mul_le_mul_of_nonneg_left hm.1 (le_of_lt hk0)
    have a3 : lo = (1 - k) * lo + k * lo := by ring
    linarith
  · have a1 : (1 - k) * kf.x ≤ (1 - k) * hi := mul_le_mul_of_nonneg_left hx.2 (le_of_lt hk1p)
    have a2 : k * m ≤ k * hi := mul_le_mul_of_nonneg_left hm.2 (le_of_lt hk0)
    have a3 : hi = (1 - k) * hi + k * hi := by ring
    linarith

theorem KalmanFilter.updateAll_nil (kf : KalmanFilter α) : kf.updateAll [] = kf := rfl

theorem KalmanFilter.updateAll_cons (kf : KalmanFilter α) (m : α) (ms : List α) :
    kf.updateAll (m :: ms) = (kf.update m).2.updateAll ms := rfl

/-- Any number of updates keeps `q`, `r` and the non-negativity of the covariance. -/
theorem KalmanFilter.updateAll_invariant (ms : List α) :
    ∀ kf : KalmanFilter α, 0 < kf.q → 0 < kf.r → 0 ≤ kf.p →
      (kf.updateAll ms).q = kf.q ∧ (kf.updateAll ms).r = kf.r ∧ 0 ≤ (kf.updateAll ms).p := by
  induction ms with
  | nil => intro kf _ _ hp; exact ⟨rfl, rfl, hp⟩
  | cons m ms ih =>
    intro kf hq hr hp
    rw [KalmanFilter.updateAll_cons]
    have h := ih (kf.update m).2 (by rw [kf.update_q]; exact hq) (by rw [kf.update_r]; exact hr)
      (kf.update_p_nonneg hq hr hp m)
    rw [kf.update_q, kf.update_r] at h
    exact h

/-- C5: for a filter with process noise `q > 0`, measurement noise `r > 0` and initial error
covariance `p ≥ 0`, and every finite measurement sequence `ms`, the error covariance is `≥ 0`
after every update (after the first `n` updates, for every `n`). -/
theorem KalmanFilter.covariance_nonneg (kf : KalmanFilter α) (hq : 0 < kf.q) (hr : 0 < kf.r)
    (hp : 0 ≤ kf.p) (ms : List α) (n : Nat) : 0 ≤ (kf.updateAll (ms.take n)).p :=
  (KalmanFilter.updateAll_invariant (ms.take n) kf hq hr hp).2.2

/-- Witness of C5: the firmware's signal filter after two of three samples, over `ℚ`. -/
theorem KalmanFilter.covariance_nonneg_witness :
    0 ≤ ((powerUp : State ℚ).rssiFilter.updateAll ([-50, -52, -51].take 2)).p :=
  KalmanFilter.covariance_nonneg (powerUp : State ℚ).rssiFilter (by norm_num [powerUp])
    (by norm_num [powerUp]) (by norm_num [powerUp]) [-50, -52, -51] 2

end Smoother

/-! ## Visual feedback: the Connected colour mapping -/

section Visuals

variable {α : Type} [LinearOrderedField α] [FloorRing α]

/-- An `int` in `0..255` survives the conversion to `uint8_t` unchanged. -/
theorem toUInt8_of_range (z : Int) (h0 : 0 ≤ z) (h1 : z < 256) : (toUInt8 z : Int) = z := by
  unfold toUInt8
  omega

/-- Truncation of a value in `[0, 256)` is an integer in `0..255`. -/
theorem truncToInt_range {v : α} (h0 : 0 ≤ v) (h1 : v < 256) :
    0 ≤ truncToInt v ∧ truncToInt v < 256 := by
  unfold truncToInt
  rw [if_pos h0]
  refine ⟨Int.floor_nonneg.mpr h0, Int.floor_lt.mpr ?_⟩
  exact_mod_cast h1

/-- In the Connected state `updateVisuals` leaves the state alone and writes one colour,
chosen by the three-way comparison of `dist` with 1.0 and 3.5. -/
theorem updateVisuals_connected (sin : α → α) (st : State α) (dist : α)
    (h : st.deviceConnected = true) :
    updateVisuals sin st dist =
      (st, [Effect.setPixelColor
          (toUInt8 (if dist < 1.0 then 0 else if dist < 3.5 then
            truncToInt (toFloat (255 * toFloat (toDouble (toDouble (dist - 1.0) / 2.5))))
            else 255))
          (toUInt8 (if dist < 1.0 then 255 else if dist < 3.5 then
            truncToInt (toDouble (255 *
              toDouble (1.0 - toFloat (toDouble (toDouble (dist - 1.0) / 2.5)))))
            else 0))
          0, Effect.pixelsShow]) := by
  unfold updateVisuals
  rw [h]
  simp only [Bool.not_true, Bool.false_eq_true, if_false]
  split_ifs <;> rfl

/-- For `1.0 ≤ dist < 3.5` the stored `ratio` lies in `[0, 1]`. -/
theorem ratio_range {dist : α} (h1 : 1.0 ≤ dist) (h2 : dist < 3.5) :
    0 ≤ toFloat (toDouble (toDouble (dist - 1.0) / 2.5)) ∧
      toFloat (toDouble (toDouble (dist - 1.0) / 2.5)) ≤ 1 := by
  have z64 : toDouble (0 : α) = 0 := toDouble_fix 0 0 (by norm_num) 0 (by norm_num)
  have z32 : toFloat (0 : α) = 0 := toFloat_fix 0 0 (by norm_num) 0 (by norm_num)
  have o64 : toDouble (1 : α) = 1 := toDouble_fix 1 0 (by norm_num) 1 (by norm_num)
  have o32 : toFloat (1 : α) = 1 := toFloat_fix 1 0 (by norm_num) 1 (by norm_num)
  have t64 : toDouble (2.5 : α) = 2.5 := toDouble_fix 5 (-1) (by norm_num) 2.5 (by norm_num)
  have a0 : 0 ≤ toDouble (dist - 1.0) := by
    have := toDouble_mono (show (0 : α) ≤ dist - 1.0 by linarith)
    rwa [z64] at this
  have a1 : toDouble (dist - 1.0) ≤ 2.5 := by
    have := toDouble_mono (show dist - 1.0 ≤ (2.5 : α) by norm_num at h2 ⊢; linarith)
    rwa [t64] at this
  have b0 : 0 ≤ toDouble (dist - 1.0) / 2.5 := div_nonneg a0 (by norm_num)
  have b1 : toDouble (dist - 1.0) / 2.5 ≤ 1 := by
    rw [div_le_one (by norm_num)]
    exact a1
  have c0 : 0 ≤ toDouble (toDouble (dist - 1.0) / 2.5) := by
    have := toDouble_mono b0
    rwa [z64] at this
  have c1 : toDouble (toDouble (dist - 1.0) / 2.5) ≤ 1 := by
    have := toDouble_mono b1
    rwa [o64] at this
  constructor
  · have := toFloat_mono c0
    rwa [z32] at this
  · have := toFloat_mono c1
    rwa [o32] at this

/-- For `1.0 ≤ dist < 3.5` both interpolated channels are in `0..255` before the conversion
to `uint8_t`. -/
theorem interpolated_channels_range {dist : α} (h1 : 1.0 ≤ dist) (h2 : dist < 3.5) :
    (0 ≤ truncToInt (toFloat (255 * toFloat (toDouble (toDouble (dist - 1.0) / 2.5)))) ∧
        truncToInt (toFloat (255 * toFloat (toDouble (toDouble (dist - 1.0) / 2.5)))) < 256) ∧
      (0 ≤ truncToInt (toDouble (255 *
          toDouble (1.0 - toFloat (toDouble (toDouble (dist - 1.0) / 2.5))))) ∧
        truncToInt (toDouble (255 *
          toDouble (1.0 - toFloat (toDouble (toDouble (dist - 1.0) / 2.5))))) < 256) := by
  obtain ⟨hr0, hr1⟩ := ratio_range h1 h2
  have z64 : toDouble (0 : α) = 0 := toDouble_fix 0 0 (by norm_num) 0 (by norm_num)
  have z32 : toFloat (0 : α) = 0 := toFloat_fix 0 0 (by norm_num) 0 (by norm_num)
  have o64 : toDouble (1 : α) = 1 := toDouble_fix 1 0 (by norm_num) 1 (by norm_num)
  have m32 : toFloat (255 : α) = 255 := toFloat_fix 255 0 (by norm_num) 255 (by norm_num)
  have m64 : toDouble (255 : α) = 255 := toDouble_fix 255 0 (by norm_num) 255 (by norm_num)
  generalize toFloat (toDouble (toDouble (dist - 1.0) / 2.5)) = ratio at hr0 hr1 ⊢
  have r0 : 0 ≤ toFloat (255 * ratio) := by
    have := toFloat_mono (show (0 : α) ≤ 255 * ratio from mul_nonneg (by norm_num) hr0)
    rwa [z32] at this
  have r1 : toFloat (255 * ratio) ≤ 255 := by
    have := toFloat_mono (show 255 * ratio ≤ (255 : α) by nlinarith)
    rwa [m32] at this
  have s0 : 0 ≤ toDouble (1.0 - ratio) := by
    have := toDouble_mono (show (0 : α) ≤ 1.0 - ratio by norm_num; linarith)
    rwa [z64] at this
  have s1 : toDouble (1.0 - ratio) ≤ 1 := by
    have := toDouble_mono (show 1.0 - ratio ≤ (1 : α) by norm_num; linarith)
    rwa [o64] at this
  have g0 : 0 ≤ toDouble (255 * toDouble (1.0 - ratio)) := by
    have := toDouble_mono
      (show (0 : α) ≤ 255 * toDouble (1.0 - ratio) from mul_nonneg (by norm_num) s0)
    rwa [z64] at this
  have g1 : toDouble (255 * toDouble (1.0 - ratio)) ≤ 255 := by
    have := toDouble_mono (show 255 * toDouble (1.0 - ratio) ≤ (255 : α) by nlinarith)
    rwa [m64] at this
  exact ⟨truncToInt_range r0 (by linarith), truncToInt_range g0 (by linarith)⟩

/-- The channels written in the Connected state at distance 2.25: every operation is exact
there (`ratio = 0.5`, both products are 127.5). -/
theorem interpolated_channels_midpoint :
    truncToInt (toFloat (255 * toFloat (toDouble (toDouble ((2.25 : α) - 1.0) / 2.5)))) = 127 ∧
      truncToInt (toDouble (255 *
        toDouble (1.0 - toFloat (toDouble (toDouble ((2.25 : α) - 1.0) / 2.5))))) = 127 := by
  have c1 : toDouble ((2.25 : α) - 1.0) = 1.25 :=
    toDouble_fix_eq 5 (-2) (by norm_num) _ _ (by norm_num) (by norm_num)
  have c2 : toDouble ((1.25 : α) / 2.5) = 0.5 :=
    toDouble_fix_eq 1 (-1) (by norm_num) _ _ (by norm_num) (by norm_num)
  have c3 : toFloat (0.5 : α) = 0.5 :=
    toFloat_fix_eq 1 (-1) (by norm_num) _ _ (by norm_num) (by norm_num)
  have c4 : toFloat (255 * (0.5 : α)) = 127.5 :=
    toFloat_fix_eq 255 (-1) (by norm_num) _ _ (by norm_num) (by norm_num)
  have c5 : toDouble (1.0 - (0.5 : α)) = 0.5 :=
    toDouble_fix_eq 1 (-1) (by norm_num) _ _ (by norm_num) (by norm_num)
  have c6 : toDouble (255 * (0.5 : α)) = 127.5 :=
    toDouble_fix_eq 255 (-1) (by norm_num) _ _ (by norm_num) (by norm_num)
  have t : truncToInt (127.5 : α) = 127 := by
    unfold truncToInt
    rw [if_pos (by norm_num), Int.floor_eq_iff]
    norm_num
  rw [c1, c2, c3, c4, c5, c6, t]
  exact ⟨rfl, rfl⟩

/-- C7 fails as stated: in the Connected state at distance 1.5 the code writes (51, 203, 0).
The stored `ratio` is the `float` next to 0.2 (13421773 / 2^26, above 0.2), so
`255 * (1.0 - ratio)` is just below 204, while the claim's formula with `ratio = (d-1.0)/2.5`
gives green `trunc(255 * 0.8) = 204`. -/
theorem updateVisuals_connected_colour_counterexample :
    (updateVisuals Real.sin (onConnect (powerUp : State ℝ)).1 1.5).2 =
        [Effect.setPixelColor 51 203 0, Effect.pixelsShow] ∧
      truncToInt ((255 : ℝ) * ((1.5 - 1.0) / 2.5)) = 51 ∧
      truncToInt ((255 : ℝ) * (1.0 - (1.5 - 1.0) / 2.5)) = 204 := by
  have c1 : toDouble ((1.5 : ℝ) - 1.0) = 0.5 :=
    toDouble_fix_eq 1 (-1) (by norm_num) _ _ (by norm_num) (by norm_num)
  have c2 : toDouble ((0.5 : ℝ) / 2.5) = 7205759403792794 / 2 ^ 55 :=
    toDouble_eval _ (-3) 7205759403792794 _ (by norm_num) (by norm_num)
      (by norm_num [abs_lt]) (by norm_num)
  have c3 : toFloat ((7205759403792794 : ℝ) / 2 ^ 55) = 13421773 / 2 ^ 26 :=
    toFloat_eval _ (-3) 13421773 _ (by norm_num) (by norm_num)
      (by norm_num [abs_lt]) (by norm_num)
  have c4 : toFloat (255 * ((13421773 : ℝ) / 2 ^ 26)) = 51 :=
    toFloat_eval _ 5 13369344 _ (by norm_num) (by norm_num)
      (by norm_num [abs_lt]) (by norm_num)
  have c5 : toDouble (1.0 - (13421773 : ℝ) / 2 ^ 26) = 53687091 / 2 ^ 26 :=
    toDouble_fix_eq 53687091 (-26) (by norm_num) _ _ (by norm_num) (by norm_num)
  have c6 : toDouble (255 * ((53687091 : ℝ) / 2 ^ 26)) = 13690208205 / 2 ^ 26 :=
    toDouble_fix_eq 13690208205 (-26) (by norm_num) _ _ (by norm_num) (by norm_num)
  have t1 : truncToInt (51 : ℝ) = 51 := by
    unfold truncToInt
    rw [if_pos (by norm_num), Int.floor_eq_iff]
    norm_num
  have t2 : truncToInt ((13690208205 : ℝ) / 2 ^ 26) = 203 := by
    unfold truncToInt
    rw [if_pos (by norm_num), Int.floor_eq_iff]
    norm_num
  have t3 : truncToInt ((255 : ℝ) * ((1.5 - 1.0) / 2.5)) = 51 := by
    unfold truncToInt
    rw [if_pos (by norm_num), Int.floor_eq_iff]
    norm_num
  have t4 : truncToInt ((255 : ℝ) * (1.0 - (1.5 - 1.0) / 2.5)) = 204 := by
    unfold truncToInt
    rw [if_pos (by norm_num), Int.floor_eq_iff]
    norm_num
  refine ⟨?_, t3, t4⟩
  rw [updateVisuals_connected Real.sin (onConnect (powerUp : State ℝ)).1 1.5 rfl,
    if_neg (by norm_num), if_pos (by norm_num), if_neg (by norm_num), if_pos (by norm_num),
    c1, c2, c3, c4, c5, c6, t1, t2]
  rfl

/-- C7 (amended): Connected colour mapping of `updateVisuals`: every `d < 1.0` gives the near
colour (0,255,0); every `d` above 3.5 gives the far colour (255,0,0); for `1.0 ≤ d < 3.5` the
colour is `r = trunc(255*ratio)` with the product rounded to `float`,
`g = trunc(255*(1-ratio))` computed in `double`, `b = 0`, where `ratio` is `(d-1.0)/2.5`
computed in `double` and rounded to `float`.  In particular 0.5 gives the near colour, 5.0 the
far colour and 2.25 the blend (127,127,0) with equal red and green channels. -/
theorem updateVisuals_connected_colour (sin : α → α) (st : State α)
    (h : st.deviceConnected = true) :
    (∀ d : α, d < 1.0 →
        (updateVisuals sin st d).2 = [Effect.setPixelColor 0 255 0, Effect.pixelsShow]) ∧
      (∀ d : α, 3.5 < d →
        (updateVisuals sin st d).2 = [Effect.setPixelColor 255 0 0, Effect.pixelsShow]) ∧
      (∀ d : α, 1.0 ≤ d → d < 3.5 → ∃ r g : Nat,
        (r : Int) =
          truncToInt (toFloat (255 * toFloat (toDouble (toDouble (d - 1.0) / 2.5)))) ∧
        (g : Int) =
          truncToInt (toDouble (255 *
            toDouble (1.0 - toFloat (toDouble (toDouble (d - 1.0) / 2.5))))) ∧
        (updateVisuals sin st d).2 = [Effect.setPixelColor r g 0, Effect.pixelsShow]) ∧
      (updateVisuals sin st 0.5).2 = [Effect.setPixelColor 0 255 0, Effect.pixelsShow] ∧
      (updateVisuals sin st 5.0).2 = [Effect.setPixelColor 255 0 0, Effect.pixelsShow] ∧
      (updateVisuals sin st 2.25).2 = [Effect.setPixelColor 127 127 0, Effect.pixelsShow] := by
  have near : ∀ d : α, d < 1.0 →
      (updateVisuals sin st d).2 = [Effect.setPixelColor 0 255 0, Effect.pixelsShow] := by
    intro d hd
    rw [updateVisuals_connected sin st d h]
    simp only [if_pos hd]
    rfl
  have far : ∀ d : α, 3.5 < d →
      (updateVisuals sin st d).2 = [Effect.setPixelColor 255 0 0, Effect.pixelsShow] := by
    intro d hd
    have h1 : ¬ d < 1.0 := by
      norm_num at hd ⊢
      linarith
    have h2 : ¬ d < 3.5 := not_lt.mpr (le_of_lt hd)
    rw [updateVisuals_connected sin st d h]
    simp only [if_neg h1, if_neg h2]
    rfl
  have mid : ∀ d : α, 1.0 ≤ d → d < 3.5 → ∃ r g : Nat,
      (r : Int) =
        truncToInt (toFloat (255 * toFloat (toDouble (toDouble (d - 1.0) / 2.5)))) ∧
      (g : Int) =
        truncToInt (toDouble (255 *
          toDouble (1.0 - toFloat (toDouble (toDouble (d - 1.0) / 2.5))))) ∧
      (updateVisuals sin st d).2 = [Effect.setPixelColor r g 0, Effect.pixelsShow] := by
    intro d h1 h2
    obtain ⟨⟨a0, a1⟩, ⟨b0, b1⟩⟩ := interpolated_channels_range h1 h2
    refine ⟨toUInt8 (truncToInt (toFloat (255 * toFloat (toDouble (toDouble (d - 1.0) / 2.5))))),
      toUInt8 (truncToInt (toDouble (255 *
        toDouble (1.0 - toFloat (toDouble (toDouble (d - 1.0) / 2.5)))))),
      toUInt8_of_range _ a0 a1, toUInt8_of_range _ b0 b1, ?_⟩
    rw [updateVisuals_connected sin st d h]
    simp only [if_neg (not_lt.mpr h1), if_pos h2]
  refine ⟨near, far, mid, near 0.5 (by norm_num), far 5.0 (by norm_num), ?_⟩
  have h1 : ¬ (2.25 : α) < 1.0 := by norm_num
  have h2 : (2.25 : α) < 3.5 := by norm_num
  obtain ⟨e1, e2⟩ := (interpolated_channels_midpoint :
    truncToInt (toFloat (255 * toFloat (toDouble (toDouble ((2.25 : α) - 1.0) / 2.5)))) = 127 ∧
      truncToInt (toDouble (255 *
        toDouble (1.0 - toFloat (toDouble (toDouble ((2.25 : α) - 1.0) / 2.5))))) = 127)
  rw [updateVisuals_connected sin st 2.25 h]
  simp only [if_neg h1, if_pos h2, e1, e2]
  rfl

/-- Witness of C7 (amended): the power-up state after a connect event, at distance 2.25. -/
theorem updateVisuals_connected_colour_witness :
    (updateVisuals Real.sin (onConnect (powerUp : State ℝ)).1 2.25).2 =
      [Effect.setPixelColor 127 127 0, Effect.pixelsShow] :=
  (updateVisuals_connected_colour Real.sin (onConnect (powerUp : State ℝ)).1 rfl).2.2.2.2.2

end Visuals

/-! ## Sampling loop helpers -/

section LoopLemmas

variable {α : Type} [LinearOrderedField α] [FloorRing α]

/-- A Connected tick whose sampled `rssi` is 0 only waits. -/
theorem loop_connected_zero (pow : α → α → α) (sin : α → α) (st : State α)
    (peerDevices : List Nat) (connRssi : Nat → Option Int)
    (hc : st.deviceConnected = true) (hs : sampleRssi peerDevices connRssi = 0) :
    loop pow sin st peerDevices connRssi = (st, [Effect.delay 50]) := by
  unfold loop
  rw [if_pos hc]
  simp only [hs, ne_eq, not_true_eq_false, if_false]

/-- A Connected tick whose sampled `rssi` is not 0 runs the whole pipeline. -/
theorem loop_connected_sample (pow : α → α → α) (sin : α → α) (st : State α)
    (peerDevices : List Nat) (connRssi : Nat → Option Int) (s : Int)
    (hc : st.deviceConnected = true) (hs : sampleRssi peerDevices connRssi = s) (h0 : s ≠ 0) :
    loop pow sin st peerDevices connRssi =
      ((updateVisuals sin
          { st with
            rssiFilter := (st.rssiFilter.update (s : α)).2
            distFilter := (st.distFilter.update (calculateDistance pow st.measuredPower
              st.pathLossExponent (st.rssiFilter.update (s : α)).1)).2 }
          (st.distFilter.update (calculateDistance pow st.measuredPower
            st.pathLossExponent (st.rssiFilter.update (s : α)).1)).1).1,
        (updateVisuals sin
          { st with
            rssiFilter := (st.rssiFilter.update (s : α)).2
            distFilter := (st.distFilter.update (calculateDistance pow st.measuredPower
              st.pathLossExponent (st.rssiFilter.update (s : α)).1)).2 }
          (st.distFilter.update (calculateDistance pow st.measuredPower
            st.pathLossExponent (st.rssiFilter.update (s : α)).1)).1).2 ++
          [Effect.distanceNotify (st.distFilter.update (calculateDistance pow st.measuredPower
              st.pathLossExponent (st.rssiFilter.update (s : α)).1)).1 1 2,
            Effect.rssiNotify (truncToInt (st.rssiFilter.update (s : α)).1),
            Effect.serial, Effect.delay 50]) := by
  unfold loop
  rw [if_pos hc]
  simp only [hs, ne_eq, h0, not_false_eq_true, if_true]

/-- The signal filter after a Connected tick with a non-zero sample. -/
theorem loop_connected_rssiFilter (pow : α → α → α) (sin : α → α) (st : State α)
    (peerDevices : List Nat) (connRssi : Nat → Option Int) (s : Int)
    (hc : st.deviceConnected = true) (hs : sampleRssi peerDevices connRssi = s) (h0 : s ≠ 0) :
    (loop pow sin st peerDevices connRssi).1.rssiFilter = (st.rssiFilter.update (s : α)).2 ∧
      (loop pow sin st peerDevices connRssi).1.deviceConnected = true ∧
      (loop pow sin st peerDevices connRssi).1.pathLossExponent = st.pathLossExponent := by
  rw [loop_connected_sample pow sin st peerDevices connRssi s hc hs h0, updateVisuals_connected]
  · exact ⟨rfl, hc, rfl⟩
  · exact hc

/-- In the Idle state `updateVisuals` stores the `float` nearest to `pulse + 0.1` (the sum
taken in `double` with the `double` constant 0.1) and writes a blue colour. -/
theorem updateVisuals_idle (sin : α → α) (st : State α) (dist : α)
    (h : st.deviceConnected = false) :
    updateVisuals sin st dist =
      ({ st with pulse := toFloat (toDouble (st.pulse + toDouble 0.1)) },
        [Effect.setPixelColor 0 0 (toUInt8 (truncToInt (toDouble
            (toDouble (sin (toFloat (toDouble (st.pulse + toDouble 0.1))) + 1.0) * 80)))),
          Effect.pixelsShow]) := by
  unfold updateVisuals
  rw [h]
  rfl

/-- An Idle tick: `updateVisuals(0)` then `delay(50)`. -/
theorem loop_idle (pow : α → α → α) (sin : α → α) (st : State α)
    (peerDevices : List Nat) (connRssi : Nat → Option Int)
    (h : st.deviceConnected = false) :
    loop pow sin st peerDevices connRssi =
      ({ st with pulse := toFloat (toDouble (st.pulse + toDouble 0.1)) },
        [Effect.setPixelColor 0 0 (toUInt8 (truncToInt (toDouble
            (toDouble (sin (toFloat (toDouble (st.pulse + toDouble 0.1))) + 1.0) * 80)))),
          Effect.pixelsShow, Effect.delay 50]) := by
  have hn : ¬ st.deviceConnected = true := by simp [h]
  unfold loop
  rw [if_neg hn, updateVisuals_idle sin st 0 h]
  rfl

/-- The state after a Connected tick with a non-zero sample: both filters updated, nothing
else changed. -/
theorem loop_connected_state (pow : α → α → α) (sin : α → α) (st : State α)
    (peerDevices : List Nat) (connRssi : Nat → Option Int) (s : Int)
    (hc : st.deviceConnected = true) (hs : sampleRssi peerDevices connRssi = s) (h0 : s ≠ 0) :
    (loop pow sin st peerDevices connRssi).1 =
      { st with
        rssiFilter := (st.rssiFilter.update (s : α)).2
        distFilter := (st.distFilter.update (calculateDistance pow st.measuredPower
          st.pathLossExponent (st.rssiFilter.update (s : α)).1)).2 } := by
  rw [loop_connected_sample pow sin st peerDevices connRssi s hc hs h0, updateVisuals_connected]
  exact hc

/-- The distance values published by a Connected tick with a non-zero sample: exactly one,
the value returned by the distance filter. -/
theorem loop_connected_published (pow : α → α → α) (sin : α → α) (st : State α)
    (peerDevices : List Nat) (connRssi : Nat → Option Int) (s : Int)
    (hc : st.deviceConnected = true) (hs : sampleRssi peerDevices connRssi = s) (h0 : s ≠ 0) :
    publishedDistances (loop pow sin st peerDevices connRssi).2 =
      [(st.distFilter.update (calculateDistance pow st.measuredPower
          st.pathLossExponent (st.rssiFilter.update (s : α)).1)).1] := by
  rw [loop_connected_sample pow sin st peerDevices connRssi s hc hs h0, updateVisuals_connected]
  · rfl
  · exact hc

/-- A tick never changes the reference strength, the path-loss exponent or the link state. -/
theorem loop_frame (pow : α → α → α) (sin : α → α) (st : State α)
    (peerDevices : List Nat) (connRssi : Nat → Option Int) :
    (loop pow sin st peerDevices connRssi).1.measuredPower = st.measuredPower ∧
      (loop pow sin st peerDevices connRssi).1.pathLossExponent = st.pathLossExponent ∧
      (loop pow sin st peerDevices connRssi).1.deviceConnected = st.deviceConnected := by
  cases hc : st.deviceConnected with
  | false =>
    rw [loop_idle pow sin st peerDevices connRssi hc]
    exact ⟨rfl, rfl, hc⟩
  | true =>
    by_cases hs : sampleRssi peerDevices connRssi = 0
    · rw [loop_connected_zero pow sin st peerDevices connRssi hc hs]
      exact ⟨rfl, rfl, hc⟩
    · rw [loop_connected_state pow sin st peerDevices connRssi _ hc rfl hs]
      exact ⟨rfl, rfl, hc⟩

end LoopLemmas

/-! ## Calibration -/

section Calibration

variable {α : Type} [LinearOrderedField α]

/-- C4 fails as stated: from power-up, a connect event and two ticks that read 127 (the largest
`int8_t`) leave the signal filter with a positive estimate `x`; a calibration write then sets
the reference strength to `x`, but `calculateDistance(x)` takes the floor branch and returns
0.1, not 1.0. -/
theorem onWrite_calibration_counterexample :
    0 < (positiveSignalState (fun b e : ℝ => b ^ e) Real.sin).rssiFilter.getValue ∧
      (onWrite (positiveSignalState (fun b e : ℝ => b ^ e) Real.sin) [1]).1.measuredPower =
        (positiveSignalState (fun b e : ℝ => b ^ e) Real.sin).rssiFilter.getValue ∧
      calculateDistance (fun b e : ℝ => b ^ e)
        (onWrite (positiveSignalState (fun b e : ℝ => b ^ e) Real.sin) [1]).1.measuredPower
        (onWrite (positiveSignalState (fun b e : ℝ => b ^ e) Real.sin) [1]).1.pathLossExponent
        (positiveSignalState (fun b e : ℝ => b ^ e) Real.sin).rssiFilter.getValue = 0.1 ∧
      calculateDistance (fun b e : ℝ => b ^ e)
        (onWrite (positiveSignalState (fun b e : ℝ => b ^ e) Real.sin) [1]).1.measuredPower
        (onWrite (positiveSignalState (fun b e : ℝ => b ^ e) Real.sin) [1]).1.pathLossExponent
        (positiveSignalState (fun b e : ℝ => b ^ e) Real.sin).rssiFilter.getValue ≠ 1.0 := by
  have hs : sampleRssi [1] (fun _ => some (127 : Int)) = 127 := rfl
  obtain ⟨e1, c1, _⟩ := loop_connected_rssiFilter (fun b e : ℝ => b ^ e) Real.sin
    (onConnect (powerUp : State ℝ)).1 [1] (fun _ => some 127) 127 rfl hs (by decide)
  obtain ⟨e2, _, _⟩ := loop_connected_rssiFilter (fun b e : ℝ => b ^ e) Real.sin
    (loop (fun b e : ℝ => b ^ e) Real.sin (onConnect (powerUp : State ℝ)).1
      [1] (fun _ => some 127)).1 [1] (fun _ => some 127) 127 c1 hs (by decide)
  have hx : 0 < (positiveSignalState (fun b e : ℝ => b ^ e) Real.sin).rssiFilter.getValue := by
    unfold positiveSignalState
    rw [e2, e1]
    norm_num [KalmanFilter.getValue, KalmanFilter.update, onConnect, powerUp]
  have hd : calculateDistance (fun b e : ℝ => b ^ e)
      (onWrite (positiveSignalState (fun b e : ℝ => b ^ e) Real.sin) [1]).1.measuredPower
      (onWrite (positiveSignalState (fun b e : ℝ => b ^ e) Real.sin) [1]).1.pathLossExponent
      (positiveSignalState (fun b e : ℝ => b ^ e) Real.sin).rssiFilter.getValue = 0.1 := by
    unfold calculateDistance
    rw [if_pos (le_of_lt hx)]
  refine ⟨hx, rfl, hd, ?_⟩
  rw [hd]
  norm_num

/-- C4 (amended): for every current smoothed signal value `x` held by the signal-strength
smoother, after a calibration write with a non-empty payload the reference strength equals
`x`; and when `x < 0`, an immediately following `calculateDistance(x)` returns 1.0 (`pow` is
only assumed to satisfy `pow(10, 0) = 1`; the path-loss exponent is positive). -/
theorem onWrite_calibration (pow : α → α → α) (hpow : pow 10.0 0 = 1) (st : State α)
    (value : List Nat) (hv : value.length > 0) (_hn : 0 < st.pathLossExponent) :
    (onWrite st value).1.measuredPower = st.rssiFilter.getValue ∧
      (st.rssiFilter.getValue < 0 →
        calculateDistance pow (onWrite st value).1.measuredPower
          (onWrite st value).1.pathLossExponent (onWrite st value).1.rssiFilter.getValue
          = 1.0) := by
  have e : onWrite st value = ({ st with measuredPower := st.rssiFilter.getValue },
      [Effect.serial, Effect.setPixelColor 0 255 0, Effect.pixelsShow, Effect.delay 200]) := by
    unfold onWrite
    rw [if_pos hv]
  rw [e]
  refine ⟨rfl, fun hneg => ?_⟩
  have h0 : ¬ st.rssiFilter.getValue ≥ 0 := not_le.mpr hneg
  simp only [calculateDistance, if_neg h0, sub_self, zero_div, hpow]
  norm_num

/-- Witness of C4 (amended): a one-byte calibration write in the power-up state (smoothed signal
-60), with the real power function. -/
theorem onWrite_calibration_witness :
    (onWrite (powerUp : State ℝ) [1]).1.measuredPower = -60.0 ∧
      calculateDistance (fun b e : ℝ => b ^ e) (onWrite (powerUp : State ℝ) [1]).1.measuredPower
        (onWrite (powerUp : State ℝ) [1]).1.pathLossExponent
        (onWrite (powerUp : State ℝ) [1]).1.rssiFilter.getValue = 1.0 :=
  have h := onWrite_calibration (fun b e : ℝ => b ^ e) (by norm_num) (powerUp : State ℝ) [1]
    (by decide) (by norm_num [powerUp])
  ⟨h.1, h.2 (by norm_num [powerUp, KalmanFilter.getValue])⟩

end Calibration

/-! ## Connection lifecycle -/

section Lifecycle

variable {α : Type} [LinearOrderedField α]

/-- C8: the link state is a two-state machine on the flag `deviceConnected` (Idle = `false`,
Connected = `true`): the initial state is Idle; a connect event results in Connected; a
disconnect event from Connected results in Idle and issues the re-advertise call exactly
once. -/
theorem connection_lifecycle :
    (powerUp : State α).deviceConnected = false ∧
      (∀ st : State α, (onConnect st).1.deviceConnected = true) ∧
      (∀ st : State α, st.deviceConnected = true →
        (onDisconnect st).1.deviceConnected = false ∧
          (onDisconnect st).2.countP Effect.isAdvertisingStart = 1) :=
  ⟨rfl, fun _ => rfl, fun _ _ => ⟨rfl, rfl⟩⟩

/-- Witness of C8: power-up, connect, disconnect, over `ℚ`. -/
theorem connection_lifecycle_witness :
    (onConnect (powerUp : State ℚ)).1.deviceConnected = true ∧
      (onDisconnect (onConnect (powerUp : State ℚ)).1).1.deviceConnected = false ∧
      (onDisconnect (onConnect (powerUp : State ℚ)).1).2.countP Effect.isAdvertisingStart = 1 :=
  ⟨rfl, (@connection_lifecycle ℚ _).2.2 (onConnect (powerUp : State ℚ)).1 rfl⟩

end Lifecycle

/-! ## Sampling loop: Connected ticks -/

section Loop

variable {α : Type} [LinearOrderedField α] [FloorRing α]

/-- C9: in a Connected tick with no valid sample (no peer handle, or the read for the first
handle fails), `loop` returns the state unchanged (both smoothers, the reference strength and
the link state) and its only call is `delay(50)`: no pixel write and no telemetry. -/
theorem loop_no_sample (pow : α → α → α) (sin : α → α) (st : State α)
    (peerDevices : List Nat) (connRssi : Nat → Option Int)
    (hc : st.deviceConnected = true)
    (hno : peerDevices = [] ∨
      ∃ handle rest, peerDevices = handle :: rest ∧ connRssi handle = none) :
    loop pow sin st peerDevices connRssi = (st, [Effect.delay 50]) ∧
      (loop pow sin st peerDevices connRssi).1.rssiFilter = st.rssiFilter ∧
      (loop pow sin st peerDevices connRssi).1.distFilter = st.distFilter ∧
      (loop pow sin st peerDevices connRssi).1.measuredPower = st.measuredPower ∧
      (loop pow sin st peerDevices connRssi).1.deviceConnected = st.deviceConnected ∧
      (loop pow sin st peerDevices connRssi).2.countP Effect.isPixelWrite = 0 ∧
      (loop pow sin st peerDevices connRssi).2.countP Effect.isTelemetry = 0 := by
  have hs : sampleRssi peerDevices connRssi = 0 := by
    rcases hno with rfl | ⟨handle, rest, rfl, hnone⟩
    · rfl
    · simp only [sampleRssi, hnone]
  rw [loop_connected_zero pow sin st peerDevices connRssi hc hs]
  exact ⟨rfl, rfl, rfl, rfl, rfl, rfl, rfl⟩

/-- Witness of C9: Connected after power-up, peer handle 1 whose read fails. -/
theorem loop_no_sample_witness :
    loop (fun b e : ℝ => b ^ e) Real.sin (onConnect (powerUp : State ℝ)).1 [1] (fun _ => none) =
      ((onConnect (powerUp : State ℝ)).1, [Effect.delay 50]) :=
  (loop_no_sample (fun b e : ℝ => b ^ e) Real.sin (onConnect (powerUp : State ℝ)).1 [1]
    (fun _ => none) rfl (Or.inr ⟨1, [], rfl, rfl⟩)).1

/-- C10: in a Connected tick whose read for the first peer handle succeeds with a sample
`s ≠ 0`, `loop` computes `smoothRssi = rssiFilter.update(s)`,
`rawDist = calculateDistance(smoothRssi)`, `smoothDist = distFilter.update(rawDist)`, stores both
updated filters, writes the Connected colour of `smoothDist` to the indicator, and emits
exactly one telemetry pair: `smoothDist` formatted with 2 decimals (`dtostrf(_, 1, 2, _)`) and
`smoothRssi` truncated to an integer. -/
theorem loop_sample (pow : α → α → α) (sin : α → α) (st : State α)
    (handle : Nat) (rest : List Nat) (connRssi : Nat → Option Int) (s : Int)
    (hc : st.deviceConnected = true) (hread : connRssi handle = some s) (h0 : s ≠ 0)
    (smoothRssi rawDist smoothDist : α)
    (h1 : smoothRssi = (st.rssiFilter.update (s : α)).1)
    (h2 : rawDist = calculateDistance pow st.measuredPower st.pathLossExponent smoothRssi)
    (h3 : smoothDist = (st.distFilter.update rawDist).1) :
    ∃ r g : Nat,
      (updateVisuals sin
        { st with rssiFilter := (st.rssiFilter.update (s : α)).2,
                  distFilter := (st.distFilter.update rawDist).2 } smoothDist).2 =
        [Effect.setPixelColor r g 0, Effect.pixelsShow] ∧
      loop pow sin st (handle :: rest) connRssi =
        ({ st with rssiFilter := (st.rssiFilter.update (s : α)).2,
                   distFilter := (st.distFilter.update rawDist).2 },
          [Effect.setPixelColor r g 0, Effect.pixelsShow,
            Effect.distanceNotify smoothDist 1 2, Effect.rssiNotify (truncToInt smoothRssi),
            Effect.serial, Effect.delay 50]) ∧
      (loop pow sin st (handle :: rest) connRssi).2.countP Effect.isTelemetry = 2 := by
  have hs : sampleRssi (handle :: rest) connRssi = s := by
    simp only [sampleRssi, hread]
  subst h1 h2 h3
  rw [loop_connected_sample pow sin st (handle :: rest) connRssi s hc hs h0,
    updateVisuals_connected]
  · exact ⟨_, _, rfl, rfl, rfl⟩
  · exact hc

/-- Witness of C10: Connected after power-up, peer handle 1 whose read yields -50, with the
real power function. -/
theorem loop_sample_witness :
    (loop (fun b e : ℝ => b ^ e) Real.sin (onConnect (powerUp : State ℝ)).1 [1]
        (fun _ => some (-50))).1.rssiFilter =
        ((onConnect (powerUp : State ℝ)).1.rssiFilter.update (((-50 : Int) : ℝ))).2 ∧
      (loop (fun b e : ℝ => b ^ e) Real.sin (onConnect (powerUp : State ℝ)).1 [1]
        (fun _ => some (-50))).2.countP Effect.isTelemetry = 2 :=
  (loop_sample (fun b e : ℝ => b ^ e) Real.sin (onConnect (powerUp : State ℝ)).1 1 []
    (fun _ => some (-50)) (-50) rfl rfl (by decide) _ _ _ rfl rfl rfl).elim
    fun _ hr => hr.elim fun _ hg => ⟨congrArg (fun t => t.1.rssiFilter) hg.2.1, hg.2.2⟩

end Loop

/-! ## Smoother: the recursion and its gain -/

section SmootherRecursion

variable {α : Type} [LinearOrderedField α]

/-- C15: `KalmanFilter::update(m)` implements the stated recursion: with `p' = p + q` and
`k = p'/(p' + r)`, the new estimate is `x + k*(m - x)`, the new error covariance is
`(1 - k)*p'`, `q` and `r` are unchanged, the call returns the new estimate, and `getValue`
afterwards returns that same value. -/
theorem KalmanFilter.update_recursion (kf : KalmanFilter α) (m : α) :
    (kf.update m).2.x =
        kf.x + (kf.p + kf.q) / (kf.p + kf.q + kf.r) * (m - kf.x) ∧
      (kf.update m).2.p = (1 - (kf.p + kf.q) / (kf.p + kf.q + kf.r)) * (kf.p + kf.q) ∧
      (kf.update m).2.q = kf.q ∧
      (kf.update m).2.r = kf.r ∧
      (kf.update m).1 = kf.x + (kf.p + kf.q) / (kf.p + kf.q + kf.r) * (m - kf.x) ∧
      (kf.update m).2.getValue = (kf.update m).1 :=
  ⟨rfl, rfl, rfl, rfl, rfl, rfl⟩

end SmootherRecursion

/-! ## Calibration payload, state ownership, zero reads -/

section Ownership

variable {α : Type}

/-- The effect of a calibration write with a non-empty payload. -/
theorem onWrite_nonempty (st : State α) (value : List Nat) (hv : value.length > 0) :
    onWrite st value = ({ st with measuredPower := st.rssiFilter.getValue },
      [Effect.serial, Effect.setPixelColor 0 255 0, Effect.pixelsShow, Effect.delay 200]) := by
  unfold onWrite
  rw [if_pos hv]

/-- A calibration write changes nothing but the reference strength. -/
theorem onWrite_frame (st : State α) (value : List Nat) :
    (onWrite st value).1.pathLossExponent = st.pathLossExponent ∧
      (onWrite st value).1.deviceConnected = st.deviceConnected ∧
      (onWrite st value).1.rssiFilter = st.rssiFilter ∧
      (onWrite st value).1.distFilter = st.distFilter ∧
      (onWrite st value).1.pulse = st.pulse := by
  unfold onWrite
  split_ifs <;> exact ⟨rfl, rfl, rfl, rfl, rfl⟩

/-- C13: the calibration payload's value is ignored: two writes with non-empty payloads applied
to the same state give the same state and the same calls, the reference strength being the
current estimate of the signal-strength smoother in both; the handler has no failure or
rejection path, whatever the payload. -/
theorem onWrite_payload_ignored (st : State α) (value1 value2 : List Nat)
    (h1 : value1.length > 0) (h2 : value2.length > 0) :
    onWrite st value1 = onWrite st value2 ∧
      (onWrite st value1).1.measuredPower = st.rssiFilter.getValue ∧
      (onWrite st value2).1.measuredPower = st.rssiFilter.getValue := by
  rw [onWrite_nonempty st value1 h1, onWrite_nonempty st value2 h2]
  exact ⟨rfl, rfl, rfl⟩

/-- Witness of C13: the payloads `[0]` and `[255, 255, 255]` in the power-up state. -/
theorem onWrite_payload_ignored_witness :
    onWrite (powerUp : State ℚ) [0] = onWrite (powerUp : State ℚ) [255, 255, 255] ∧
      (onWrite (powerUp : State ℚ) [0]).1.measuredPower = -60.0 :=
  have h := onWrite_payload_ignored (powerUp : State ℚ) [0] [255, 255, 255]
    (by decide) (by decide)
  ⟨h.1, h.2.1⟩

end Ownership

section OwnershipLoop

variable {α : Type} [LinearOrderedField α] [FloorRing α]

/-- C17: state ownership.  A tick (with or without a sample), a connect and a disconnect leave
the reference strength unchanged, so only the calibration handler changes it; no operation
changes the path-loss exponent; a tick never changes the link state; connect and disconnect
change nothing but the link state. -/
theorem state_ownership (pow : α → α → α) (sin : α → α) (st : State α)
    (peerDevices : List Nat) (connRssi : Nat → Option Int) (value : List Nat) :
    ((loop pow sin st peerDevices connRssi).1.measuredPower = st.measuredPower ∧
        (onConnect st).1.measuredPower = st.measuredPower ∧
        (onDisconnect st).1.measuredPower = st.measuredPower) ∧
      ((loop pow sin st peerDevices connRssi).1.pathLossExponent = st.pathLossExponent ∧
        (onWrite st value).1.pathLossExponent = st.pathLossExponent ∧
        (onConnect st).1.pathLossExponent = st.pathLossExponent ∧
        (onDisconnect st).1.pathLossExponent = st.pathLossExponent) ∧
      (loop pow sin st peerDevices connRssi).1.deviceConnected = st.deviceConnected ∧
      (onConnect st).1 = { st with deviceConnected := true } ∧
      (onDisconnect st).1 = { st with deviceConnected := false } := by
  obtain ⟨h1, h2, h3⟩ := loop_frame pow sin st peerDevices connRssi
  exact ⟨⟨h1, rfl, rfl⟩, ⟨h2, (onWrite_frame st value).1, rfl, rfl⟩, h3, rfl, rfl⟩

/-- C20: in a Connected tick, a read that succeeds with the value 0 is treated exactly like a
failed read or a missing peer: the same state and the same calls result, namely the unchanged
state and `delay(50)` alone (no smoother update, no pixel write, no telemetry). -/
theorem loop_zero_read (pow : α → α → α) (sin : α → α) (st : State α)
    (handle : Nat) (rest : List Nat) (connRssi : Nat → Option Int)
    (hc : st.deviceConnected = true) (hread : connRssi handle = some 0) :
    loop pow sin st (handle :: rest) connRssi =
        loop pow sin st (handle :: rest) (fun _ => none) ∧
      loop pow sin st (handle :: rest) connRssi = loop pow sin st [] connRssi ∧
      loop pow sin st (handle :: rest) connRssi = (st, [Effect.delay 50]) := by
  have hs : sampleRssi (handle :: rest) connRssi = 0 := by
    simp only [sampleRssi, hread]
  rw [loop_connected_zero pow sin st (handle :: rest) connRssi hc hs,
    loop_connected_zero pow sin st (handle :: rest) (fun _ => none) hc rfl,
    loop_connected_zero pow sin st [] connRssi hc rfl]
  exact ⟨rfl, rfl, rfl⟩

/-- Witness of C20: Connected after power-up, peer handle 1 whose read yields 0. -/
theorem loop_zero_read_witness :
    loop (fun b e : ℝ => b ^ e) Real.sin (onConnect (powerUp : State ℝ)).1 [1]
        (fun _ => some 0) =
      loop (fun b e : ℝ => b ^ e) Real.sin (onConnect (powerUp : State ℝ)).1 [1]
        (fun _ => none) :=
  (loop_zero_read (fun b e : ℝ => b ^ e) Real.sin (onConnect (powerUp : State ℝ)).1 1 []
    (fun _ => some 0) rfl rfl).1

end OwnershipLoop

/-! ## Reachable states: the distance estimate stays in range -/

section ReachableInit

variable {α : Type} [LinearOrderedField α]

/-- The power-up state has a well-formed distance filter with estimate 1.0. -/
theorem powerUp_distFilter_invariant :
    0 < (powerUp : State α).distFilter.q ∧ 0 < (powerUp : State α).distFilter.r ∧
      0 ≤ (powerUp : State α).distFilter.p ∧
      0.1 ≤ (powerUp : State α).distFilter.x ∧ (powerUp : State α).distFilter.x ≤ 30.0 := by
  simp only [powerUp]
  norm_num

end ReachableInit

section Reachable

variable {α : Type} [LinearOrderedField α] [FloorRing α]

/-- One event keeps the distance filter well-formed (`q > 0`, `r > 0`, `p ≥ 0`) and its
estimate in `[0.1, 30.0]`. -/
theorem step_distFilter_invariant (pow : α → α → α) (sin : α → α) (st : State α) (ev : Event)
    (h : 0 < st.distFilter.q ∧ 0 < st.distFilter.r ∧ 0 ≤ st.distFilter.p ∧
      0.1 ≤ st.distFilter.x ∧ st.distFilter.x ≤ 30.0) :
    0 < (step pow sin st ev).1.distFilter.q ∧ 0 < (step pow sin st ev).1.distFilter.r ∧
      0 ≤ (step pow sin st ev).1.distFilter.p ∧
      0.1 ≤ (step pow sin st ev).1.distFilter.x ∧ (step pow sin st ev).1.distFilter.x ≤ 30.0 := by
  obtain ⟨hq, hr, hp, hx⟩ := h
  cases ev with
  | tick peerDevices connRssi =>
    simp only [step]
    cases hc : st.deviceConnected with
    | false =>
      rw [loop_idle pow sin st peerDevices connRssi hc]
      exact ⟨hq, hr, hp, hx⟩
    | true =>
      by_cases hs : sampleRssi peerDevices connRssi = 0
      · rw [loop_connected_zero pow sin st peerDevices connRssi hc hs]
        exact ⟨hq, hr, hp, hx⟩
      · rw [loop_connected_state pow sin st peerDevices connRssi _ hc rfl hs]
        exact ⟨hq, hr, st.distFilter.update_p_nonneg hq hr hp _,
          st.distFilter.update_x_between hq hr hp _ _ _ hx (calculateDistance_bounds _ _ _ _)⟩
  | connect => exact ⟨hq, hr, hp, hx⟩
  | disconnect => exact ⟨hq, hr, hp, hx⟩
  | calibWrite value =>
    simp only [step]
    rw [(onWrite_frame st value).2.2.2.1]
    exact ⟨hq, hr, hp, hx⟩

/-- Any finite sequence of events keeps the distance filter well-formed and its estimate in
`[0.1, 30.0]`. -/
theorem run_distFilter_invariant (pow : α → α → α) (sin : α → α) (evs : List Event) :
    ∀ st : State α,
      (0 < st.distFilter.q ∧ 0 < st.distFilter.r ∧ 0 ≤ st.distFilter.p ∧
        0.1 ≤ st.distFilter.x ∧ st.distFilter.x ≤ 30.0) →
      0 < (run pow sin st evs).distFilter.q ∧ 0 < (run pow sin st evs).distFilter.r ∧
        0 ≤ (run pow sin st evs).distFilter.p ∧
        0.1 ≤ (run pow sin st evs).distFilter.x ∧ (run pow sin st evs).distFilter.x ≤ 30.0 := by
  induction evs with
  | nil => intro st h; exact h
  | cons ev evs ih =>
    intro st h
    exact ih (step pow sin st ev).1 (step_distFilter_invariant pow sin st ev h)

/-- Whatever one event publishes on the distance characteristic is the estimate the distance
filter holds afterwards. -/
theorem step_published (pow : α → α → α) (sin : α → α) (st : State α) (ev : Event) :
    ∀ v ∈ publishedDistances (step pow sin st ev).2, v = (step pow sin st ev).1.distFilter.x := by
  cases ev with
  | tick peerDevices connRssi =>
    simp only [step]
    cases hc : st.deviceConnected with
    | false =>
      rw [loop_idle pow sin st peerDevices connRssi hc]
      intro v hv
      exact absurd hv (List.not_mem_nil v)
    | true =>
      by_cases hs : sampleRssi peerDevices connRssi = 0
      · rw [loop_connected_zero pow sin st peerDevices connRssi hc hs]
        intro v hv
        exact absurd hv (List.not_mem_nil v)
      · rw [loop_connected_published pow sin st peerDevices connRssi _ hc rfl hs,
          loop_connected_state pow sin st peerDevices connRssi _ hc rfl hs]
        intro v hv
        rw [List.mem_singleton] at hv
        rw [hv]
        rfl
  | connect => intro v hv; exact absurd hv (List.not_mem_nil v)
  | disconnect => intro v hv; exact absurd hv (List.not_mem_nil v)
  | calibWrite value =>
    simp only [step]
    unfold onWrite
    split_ifs <;> intro v hv <;> exact absurd hv (List.not_mem_nil v)

/-- C18: starting from the power-up state, after any finite sequence of ticks (with any peer
list and any read outcome), connect/disconnect events and calibration writes, the distance
smoother's current estimate lies in `[0.1, 30.0]`, and so does every smoothed distance that
the next event publishes (for every `pow` and `sin`). -/
theorem reachable_distance_in_range (pow : α → α → α) (sin : α → α) (evs : List Event)
    (ev : Event) :
    (0.1 ≤ (run pow sin (powerUp : State α) evs).distFilter.getValue ∧
        (run pow sin (powerUp : State α) evs).distFilter.getValue ≤ 30.0) ∧
      ∀ v ∈ publishedDistances (step pow sin (run pow sin (powerUp : State α) evs) ev).2,
        0.1 ≤ v ∧ v ≤ 30.0 := by
  have h := run_distFilter_invariant pow sin evs (powerUp : State α) powerUp_distFilter_invariant
  refine ⟨h.2.2.2, fun v hv => ?_⟩
  rw [step_published pow sin _ ev v hv]
  exact (step_distFilter_invariant pow sin _ ev h).2.2.2

/-- Witness of C18: power-up, connect, then ticks reading -90 and -30, with the real power
function. -/
theorem reachable_distance_in_range_witness :
    0.1 ≤ (run (fun b e : ℝ => b ^ e) Real.sin (powerUp : State ℝ)
        [Event.connect, Event.tick [1] (fun _ => some (-90)),
          Event.tick [1] (fun _ => some (-30))]).distFilter.getValue ∧
      (run (fun b e : ℝ => b ^ e) Real.sin (powerUp : State ℝ)
        [Event.connect, Event.tick [1] (fun _ => some (-90)),
          Event.tick [1] (fun _ => some (-30))]).distFilter.getValue ≤ 30.0 :=
  (reachable_distance_in_range (fun b e : ℝ => b ^ e) Real.sin
    [Event.connect, Event.tick [1] (fun _ => some (-90)), Event.tick [1] (fun _ => some (-30))]
    Event.connect).1

end Reachable

/-! ## Visual feedback: channel ranges, Idle pulse, calibration flash -/

section VisualRanges

variable {α : Type} [LinearOrderedField α] [FloorRing α]

/-- For a sine with values in `[-1, 1]` the Idle brightness before the conversion to `uint8_t`
is an integer in `0..160`. -/
theorem idle_brightness_range (sin : α → α) (hsin : ∀ x, -1 ≤ sin x ∧ sin x ≤ 1) (phase : α) :
    0 ≤ truncToInt (toDouble (toDouble (sin phase + 1.0) * 80)) ∧
      truncToInt (toDouble (toDouble (sin phase + 1.0) * 80)) ≤ 160 := by
  obtain ⟨h1, h2⟩ := hsin phase
  have z64 : toDouble (0 : α) = 0 := toDouble_fix 0 0 (by norm_num) 0 (by norm_num)
  have t64 : toDouble (2 : α) = 2 := toDouble_fix 2 0 (by norm_num) 2 (by norm_num)
  have m64 : toDouble (160 : α) = 160 := toDouble_fix 160 0 (by norm_num) 160 (by norm_num)
  have a0 : 0 ≤ toDouble (sin phase + 1.0) := by
    have := toDouble_mono (show (0 : α) ≤ sin phase + 1.0 by norm_num; linarith)
    rwa [z64] at this
  have a1 : toDouble (sin phase + 1.0) ≤ 2 := by
    have := toDouble_mono (show sin phase + 1.0 ≤ (2 : α) by norm_num; linarith)
    rwa [t64] at this
  have b0 : 0 ≤ toDouble (toDouble (sin phase + 1.0) * 80) := by
    have := toDouble_mono
      (show (0 : α) ≤ toDouble (sin phase + 1.0) * 80 from mul_nonneg a0 (by norm_num))
    rwa [z64] at this
  have b1 : toDouble (toDouble (sin phase + 1.0) * 80) ≤ 160 := by
    have := toDouble_mono (show toDouble (sin phase + 1.0) * 80 ≤ (160 : α) by linarith)
    rwa [m64] at this
  unfold truncToInt
  rw [if_pos b0]
  refine ⟨Int.floor_nonneg.mpr b0, ?_⟩
  have h3 : toDouble (toDouble (sin phase + 1.0) * 80) < ((161 : Int) : α) := by
    norm_num
    linarith
  have := Int.floor_lt.mpr h3
  omega

/-- The pre-conversion channel values of the Connected mapping are integers in `0..255`. -/
theorem connected_channels_range (dist : α) :
    (0 ≤ (if dist < 1.0 then (0 : Int) else if dist < 3.5 then
          truncToInt (toFloat (255 * toFloat (toDouble (toDouble (dist - 1.0) / 2.5))))
          else 255) ∧
        (if dist < 1.0 then (0 : Int) else if dist < 3.5 then
          truncToInt (toFloat (255 * toFloat (toDouble (toDouble (dist - 1.0) / 2.5))))
          else 255) < 256) ∧
      (0 ≤ (if dist < 1.0 then (255 : Int) else if dist < 3.5 then
          truncToInt (toDouble (255 *
            toDouble (1.0 - toFloat (toDouble (toDouble (dist - 1.0) / 2.5)))))
          else 0) ∧
        (if dist < 1.0 then (255 : Int) else if dist < 3.5 then
          truncToInt (toDouble (255 *
            toDouble (1.0 - toFloat (toDouble (toDouble (dist - 1.0) / 2.5)))))
          else 0) < 256) := by
  split_ifs with h1 h2
  · exact ⟨⟨by decide, by decide⟩, ⟨by decide, by decide⟩⟩
  · exact interpolated_channels_range (not_lt.mp h1) h2
  · exact ⟨⟨by decide, by decide⟩, ⟨by decide, by decide⟩⟩

/-- C14: for every link state and every distance, each channel value that `updateVisuals`
computes lies in `0..255` before its conversion to `uint8_t`, so the written channel equals the
computed value.  Idle: the blue brightness `trunc((sin(phase)+1)*80)` (computed in `double`) is
in `0..160` for every phase.  Connected: red and green are in `0..255` for every distance.
(`sin` is assumed to take values in `[-1, 1]`.) -/
theorem updateVisuals_valid_colour (sin : α → α) (hsin : ∀ x, -1 ≤ sin x ∧ sin x ≤ 1)
    (st : State α) (dist : α) :
    (∀ phase : α, 0 ≤ truncToInt (toDouble (toDouble (sin phase + 1.0) * 80)) ∧
        truncToInt (toDouble (toDouble (sin phase + 1.0) * 80)) ≤ 160) ∧
      (st.deviceConnected = false → ∃ b : Nat,
        (b : Int) = truncToInt (toDouble
          (toDouble (sin (toFloat (toDouble (st.pulse + toDouble 0.1))) + 1.0) * 80)) ∧
        b ≤ 160 ∧
        (updateVisuals sin st dist).2 = [Effect.setPixelColor 0 0 b, Effect.pixelsShow]) ∧
      (st.deviceConnected = true → ∃ r g : Nat,
        (r : Int) = (if dist < 1.0 then (0 : Int) else if dist < 3.5 then
          truncToInt (toFloat (255 * toFloat (toDouble (toDouble (dist - 1.0) / 2.5))))
          else 255) ∧
        (g : Int) = (if dist < 1.0 then (255 : Int) else if dist < 3.5 then
          truncToInt (toDouble (255 *
            toDouble (1.0 - toFloat (toDouble (toDouble (dist - 1.0) / 2.5)))))
          else 0) ∧
        r ≤ 255 ∧ g ≤ 255 ∧
        (updateVisuals sin st dist).2 = [Effect.setPixelColor r g 0, Effect.pixelsShow]) := by
  refine ⟨idle_brightness_range sin hsin, fun h => ?_, fun h => ?_⟩
  · obtain ⟨b0, b1⟩ :=
      idle_brightness_range sin hsin (toFloat (toDouble (st.pulse + toDouble 0.1)))
    have e := toUInt8_of_range _ b0 (by omega)
    refine ⟨_, e, by omega, ?_⟩
    rw [updateVisuals_idle sin st dist h]
  · obtain ⟨⟨r0, r1⟩, ⟨g0, g1⟩⟩ := connected_channels_range dist
    have er := toUInt8_of_range _ r0 r1
    have eg := toUInt8_of_range _ g0 g1
    refine ⟨_, _, er, eg, by omega, by omega, ?_⟩
    rw [updateVisuals_connected sin st dist h]

/-- Witness of C14 with the real sine: the power-up state (Idle). -/
theorem updateVisuals_valid_colour_witness :
    ∃ b : Nat,
      (b : Int) = truncToInt (toDouble (toDouble
        (Real.sin (toFloat (toDouble ((powerUp : State ℝ).pulse + toDouble 0.1))) + 1.0) * 80)) ∧
      b ≤ 160 ∧
      (updateVisuals Real.sin (powerUp : State ℝ) 0).2 =
        [Effect.setPixelColor 0 0 b, Effect.pixelsShow] :=
  (updateVisuals_valid_colour Real.sin (fun x => ⟨Real.neg_one_le_sin x, Real.sin_le_one x⟩)
    (powerUp : State ℝ) 0).2.1 rfl

/-- Once the phase is 2097152 (2^21) the stored `float` no longer moves: the unit in that
binade is 0.25, more than twice the increment. -/
theorem pulse_sticks :
    toFloat (toDouble ((2097152 : ℝ) + toDouble 0.1)) = 2097152 := by
  have c1 : toDouble (0.1 : ℝ) = 7205759403792794 / 2 ^ 56 :=
    toDouble_eval _ (-4) 7205759403792794 _ (by norm_num) (by norm_num)
      (by norm_num [abs_lt]) (by norm_num)
  have c2 : toDouble ((2097152 : ℝ) + 7205759403792794 / 2 ^ 56) =
      4503599842118861 / 2 ^ 31 :=
    toDouble_eval _ 21 4503599842118861 _ (by norm_num) (by norm_num)
      (by norm_num [abs_lt]) (by norm_num)
  have c3 : toFloat ((4503599842118861 : ℝ) / 2 ^ 31) = 2097152 :=
    toFloat_eval _ 21 8388608 _ (by norm_num) (by norm_num)
      (by norm_num [abs_lt]) (by norm_num)
  rw [c1, c2, c3]

/-- The phase stays a `float` under every event, so the assumption of `pulse_step_ge` holds in
every state reachable from power-up. -/
theorem run_pulse_float (pow : α → α → α) (sin : α → α) (evs : List Event) :
    ∀ st : State α, toFloat st.pulse = st.pulse →
      toFloat (run pow sin st evs).pulse = (run pow sin st evs).pulse := by
  induction evs with
  | nil => intro st h; exact h
  | cons ev evs ih =>
    intro st h
    apply ih
    cases ev with
    | tick peerDevices connRssi =>
      simp only [step]
      cases hc : st.deviceConnected with
      | false =>
        rw [loop_idle pow sin st peerDevices connRssi hc]
        exact toFloat_idem _
      | true =>
        by_cases hs : sampleRssi peerDevices connRssi = 0
        · rw [loop_connected_zero pow sin st peerDevices connRssi hc hs]
          exact h
        · rw [loop_connected_state pow sin st peerDevices connRssi _ hc rfl hs]
          exact h
    | connect => exact h
    | disconnect => exact h
    | calibWrite value =>
      simp only [step]
      rw [(onWrite_frame st value).2.2.2.2]
      exact h

/-- For a `float` distance with `1.0 < dist < 3.5` the stored `ratio` is at least `2^-25`. -/
theorem ratio_lower {dist : α} (hf : toFloat dist = dist) (h1 : 1.0 < dist) :
    (2 : α) ^ (-25 : Int) ≤ toFloat (toDouble (toDouble (dist - 1.0) / 2.5)) := by
  have hgap := toFloat_gap_above_one hf (show (1 : α) < dist by norm_num at h1; exact h1)
  have f1 : toDouble ((2 : α) ^ (-23 : Int)) = 2 ^ (-23 : Int) :=
    toDouble_fix 1 (-23) (by norm_num) _ (by norm_num)
  have f2 : toDouble ((2 : α) ^ (-25 : Int)) = 2 ^ (-25 : Int) :=
    toDouble_fix 1 (-25) (by norm_num) _ (by norm_num)
  have f3 : toFloat ((2 : α) ^ (-25 : Int)) = 2 ^ (-25 : Int) :=
    toFloat_fix 1 (-25) (by norm_num) _ (by norm_num)
  have a1 : (2 : α) ^ (-23 : Int) ≤ toDouble (dist - 1.0) := by
    have := toDouble_mono (show (2 : α) ^ (-23 : Int) ≤ dist - 1.0 by
      norm_num at hgap ⊢
      linarith)
    rwa [f1] at this
  have a2 : (2 : α) ^ (-25 : Int) ≤ toDouble (dist - 1.0) / 2.5 := by
    rw [le_div_iff₀ (by norm_num)]
    have e : (2 : α) ^ (-25 : Int) * 2.5 ≤ 2 ^ (-23 : Int) := by norm_num
    exact le_trans e a1
  have a3 : (2 : α) ^ (-25 : Int) ≤ toDouble (toDouble (dist - 1.0) / 2.5) := by
    have := toDouble_mono a2
    rwa [f2] at this
  have := toFloat_mono a3
  rwa [f3] at this

/-- For a `float` distance with `1.0 < dist < 3.5` the interpolated green channel is below
255 before conversion. -/
theorem interpolated_green_lt {dist : α} (hf : toFloat dist = dist) (h1 : 1.0 < dist)
    (h2 : dist < 3.5) :
    truncToInt (toDouble (255 *
      toDouble (1.0 - toFloat (toDouble (toDouble (dist - 1.0) / 2.5))))) < 255 := by
  have hr := ratio_lower hf h1
  obtain ⟨_, hr1⟩ := ratio_range (le_of_lt h1) h2
  generalize toFloat (toDouble (toDouble (dist - 1.0) / 2.5)) = ratio at hr hr1 ⊢
  have z64 : toDouble (0 : α) = 0 := toDouble_fix 0 0 (by norm_num) 0 (by norm_num)
  have f1 : toDouble ((33554431 : α) / 2 ^ 25) = 33554431 / 2 ^ 25 :=
    toDouble_fix 33554431 (-25) (by norm_num) _ (by norm_num)
  have f2 : toDouble ((8556379905 : α) / 2 ^ 25) = 8556379905 / 2 ^ 25 :=
    toDouble_fix 8556379905 (-25) (by norm_num) _ (by norm_num)
  have s0 : 0 ≤ toDouble (1.0 - ratio) := by
    have := toDouble_mono (show (0 : α) ≤ 1.0 - ratio by norm_num; linarith)
    rwa [z64] at this
  have g0 : 0 ≤ toDouble (255 * toDouble (1.0 - ratio)) := by
    have := toDouble_mono
      (show (0 : α) ≤ 255 * toDouble (1.0 - ratio) from mul_nonneg (by norm_num) s0)
    rwa [z64] at this
  have a1 : toDouble (1.0 - ratio) ≤ 33554431 / 2 ^ 25 := by
    have := toDouble_mono (show 1.0 - ratio ≤ (33554431 : α) / 2 ^ 25 by
      norm_num at hr ⊢
      linarith)
    rwa [f1] at this
  have a2 : toDouble (255 * toDouble (1.0 - ratio)) ≤ 8556379905 / 2 ^ 25 := by
    have := toDouble_mono (show 255 * toDouble (1.0 - ratio) ≤ (8556379905 : α) / 2 ^ 25 by
      norm_num at a1 ⊢
      linarith)
    rwa [f2] at this
  have a3 : toDouble (255 * toDouble (1.0 - ratio)) < ((255 : Int) : α) := by
    have : (8556379905 : α) / 2 ^ 25 < 255 := by norm_num
    push_cast
    exact lt_of_le_of_lt a2 this
  unfold truncToInt
  rw [if_pos g0]
  exact Int.floor_lt.mpr a3

/-- C12 fails as stated: the colour written by the calibration handler, (0,255,0), is the
colour the normal mapping writes in the Connected state at distance 0.5 (the near colour). -/
theorem calibration_colour_counterexample :
    writtenColours (onWrite (onConnect (powerUp : State ℝ)).1 [1]).2 = [(0, 255, 0)] ∧
      writtenColours (updateVisuals Real.sin (onConnect (powerUp : State ℝ)).1 0.5).2 =
        [(0, 255, 0)] := by
  refine ⟨rfl, ?_⟩
  rw [updateVisuals_connected Real.sin (onConnect (powerUp : State ℝ)).1 0.5 rfl,
    if_pos (by norm_num), if_pos (by norm_num)]
  rfl

/-- C12 (amended): the calibration handler writes the fixed colour (0,255,0).  It differs from
every Idle pulse colour, from the far colour and from the interpolated colour of every
distance above 1.0 (a `float`, as `updateVisuals` receives it); it is the colour that the
Connected mapping writes for the distances up to 1.0 (the near colour). -/
theorem calibration_colour (sin : α → α) (st : State α) (value : List Nat)
    (hv : value.length > 0) (st1 : State α) (d : α) :
    writtenColours (onWrite st value).2 = [(0, 255, 0)] ∧
      (st1.deviceConnected = false →
        (0, 255, 0) ∉ writtenColours (updateVisuals sin st1 d).2) ∧
      (st1.deviceConnected = true → toFloat d = d → 1.0 < d →
        (0, 255, 0) ∉ writtenColours (updateVisuals sin st1 d).2) ∧
      (st1.deviceConnected = true → d ≤ 1.0 →
        writtenColours (updateVisuals sin st1 d).2 = [(0, 255, 0)]) := by
  refine ⟨?_, fun h => ?_, fun h hf hd => ?_, fun h hd => ?_⟩
  · rw [onWrite_nonempty st value hv]
    rfl
  · rw [updateVisuals_idle sin st1 d h]
    simp [writtenColours, Effect.colour]
  · rw [updateVisuals_connected sin st1 d h]
    have h1 : ¬ d < 1.0 := not_lt.mpr (le_of_lt hd)
    rw [if_neg h1, if_neg h1]
    by_cases h2 : d < 3.5
    · rw [if_pos h2, if_pos h2]
      have hg := interpolated_green_lt hf hd h2
      have hg0 := (interpolated_channels_range (le_of_lt hd) h2).2
      have eg := toUInt8_of_range _ hg0.1 hg0.2
      simp only [writtenColours, Effect.colour, List.filterMap_cons, List.filterMap_nil,
        List.mem_singleton, Prod.mk.injEq, not_and]
      intro _ hg255
      omega
    · rw [if_neg h2, if_neg h2]
      simp [writtenColours, Effect.colour, toUInt8]
  · rw [updateVisuals_connected sin st1 d h]
    rcases lt_or_eq_of_le hd with hlt | heq
    · rw [if_pos hlt, if_pos hlt]
      rfl
    · have h1 : ¬ d < 1.0 := by rw [heq]; exact lt_irrefl _
      have h2 : d < 3.5 := by rw [heq]; norm_num
      have c1 : toDouble ((1.0 : α) - 1.0) = 0 :=
        toDouble_fix_eq 0 0 (by norm_num) _ _ (by norm_num) (by norm_num)
      have c2 : toDouble ((0 : α) / 2.5) = 0 :=
        toDouble_fix_eq 0 0 (by norm_num) _ _ (by norm_num) (by norm_num)
      have c3 : toFloat (0 : α) = 0 :=
        toFloat_fix_eq 0 0 (by norm_num) _ _ (by norm_num) (by norm_num)
      have c4 : toFloat (255 * (0 : α)) = 0 :=
        toFloat_fix_eq 0 0 (by norm_num) _ _ (by norm_num) (by norm_num)
      have c5 : toDouble ((1.0 : α) - 0) = 1 :=
        toDouble_fix_eq 1 0 (by norm_num) _ _ (by norm_num) (by norm_num)
      have c6 : toDouble (255 * (1 : α)) = 255 :=
        toDouble_fix_eq 255 0 (by norm_num) _ _ (by norm_num) (by norm_num)
      have t0 : truncToInt (0 : α) = 0 := by simp [truncToInt]
      have t255 : truncToInt (255 : α) = 255 := by
        unfold truncToInt
        rw [if_pos (by norm_num), Int.floor_eq_iff]
        norm_num
      rw [if_neg h1, if_neg h1, if_pos h2, if_pos h2, heq, c1, c2, c3, c4, c5, c6, t0, t255]
      rfl

/-- Witness of C12 (amended): a one-byte write, and the Connected mapping at distance 2.25. -/
theorem calibration_colour_witness :
    writtenColours (onWrite (powerUp : State ℝ) [1]).2 = [(0, 255, 0)] ∧
      (0, 255, 0) ∉ writtenColours
        (updateVisuals Real.sin (onConnect (powerUp : State ℝ)).1 2.25).2 :=
  have h := calibration_colour Real.sin (powerUp : State ℝ) [1] (by decide)
    (onConnect (powerUp : State ℝ)).1 2.25
  ⟨h.1, h.2.2.1 rfl (toFloat_fix 9 (-2) (by norm_num) _ (by norm_num)) (by norm_num)⟩

end VisualRanges

/-! ## End-to-end scenario -/

section ScenarioLemmas

variable {α : Type} [LinearOrderedField α]

/-- A lower bound on the power term below 30 is a lower bound on `calculateDistance`, for a
negative signal. -/
theorem le_calculateDistance (pow : α → α → α) (measuredPower pathLossExponent rssi L : α)
    (h0 : rssi < 0)
    (hL : L ≤ pow 10.0 ((measuredPower - rssi) / (10.0 * pathLossExponent)))
    (hL30 : L ≤ 30.0) : L ≤ calculateDistance pow measuredPower pathLossExponent rssi := by
  have hneg : ¬ rssi ≥ 0 := not_le.mpr h0
  simp only [calculateDistance, if_neg hneg]
  split_ifs with h1 h2
  · exact le_of_lt (lt_of_le_of_lt hL h1)
  · exact hL30
  · exact hL

/-- An upper bound on the power term above 0.1 is an upper bound on `calculateDistance`, for a
negative signal. -/
theorem calculateDistance_le (pow : α → α → α) (measuredPower pathLossExponent rssi U : α)
    (h0 : rssi < 0)
    (hU : pow 10.0 ((measuredPower - rssi) / (10.0 * pathLossExponent)) ≤ U)
    (hU1 : 0.1 ≤ U) : calculateDistance pow measuredPower pathLossExponent rssi ≤ U := by
  have hneg : ¬ rssi ≥ 0 := not_le.mpr h0
  simp only [calculateDistance, if_neg hneg]
  split_ifs with h1 h2
  · exact hU1
  · exact le_of_lt (lt_of_lt_of_le h2 hU)
  · exact hU

end ScenarioLemmas

section Scenario

/-- Lower bound on a rational power of 10 from a comparison of integer powers. -/
theorem le_rpow_ten {L : ℝ} (p q : Nat) (hq : 0 < q)
    (h : L ^ q ≤ (10 : ℝ) ^ p) : L ≤ (10 : ℝ) ^ ((p : ℝ) / (q : ℝ)) := by
  have hq0 : (q : ℝ) ≠ 0 := Nat.cast_ne_zero.mpr (Nat.pos_iff_ne_zero.mp hq)
  have e : ((10 : ℝ) ^ ((p : ℝ) / (q : ℝ))) ^ q = (10 : ℝ) ^ p := by
    rw [← Real.rpow_natCast, ← Real.rpow_mul (by norm_num), div_mul_cancel₀ _ hq0,
      Real.rpow_natCast]
  by_contra hlt
  have hlt1 : (10 : ℝ) ^ ((p : ℝ) / (q : ℝ)) < L := not_le.mp hlt
  have h2 := pow_lt_pow_left₀ hlt1 (Real.rpow_nonneg (by norm_num) _)
    (Nat.pos_iff_ne_zero.mp hq)
  rw [e] at h2
  exact absurd h (not_le.mpr h2)

/-- Upper bound on a rational power of 10 from a comparison of integer powers. -/
theorem rpow_ten_le {U : ℝ} (hU : 0 ≤ U) (p q : Nat) (hq : 0 < q)
    (h : (10 : ℝ) ^ p ≤ U ^ q) : (10 : ℝ) ^ ((p : ℝ) / (q : ℝ)) ≤ U := by
  have hq0 : (q : ℝ) ≠ 0 := Nat.cast_ne_zero.mpr (Nat.pos_iff_ne_zero.mp hq)
  have e : ((10 : ℝ) ^ ((p : ℝ) / (q : ℝ))) ^ q = (10 : ℝ) ^ p := by
    rw [← Real.rpow_natCast, ← Real.rpow_mul (by norm_num), div_mul_cancel₀ _ hq0,
      Real.rpow_natCast]
  by_contra hlt
  have hlt1 : U < (10 : ℝ) ^ ((p : ℝ) / (q : ℝ)) := not_le.mp hlt
  have h2 := pow_lt_pow_left₀ hlt1 hU (Nat.pos_iff_ne_zero.mp hq)
  rw [e] at h2
  exact absurd h (not_le.mpr h2)

/-- With the firmware defaults (reference -55, exponent 2.4) and the real power function:
if the exponent `(-55 - x)/24` is at least `p/q` and `L^q ≤ 10^p`, then
`L ≤ calculateDistance(x)`. -/
theorem scenario_lower {x L : ℝ} (p q : Nat) (hq : 0 < q) (hx : x < 0)
    (hL30 : L ≤ 30) (he : (p : ℝ) / (q : ℝ) ≤ (-55 - x) / 24) (h : L ^ q ≤ (10 : ℝ) ^ p) :
    L ≤ calculateDistance (fun b e : ℝ => b ^ e) (-55.0) 2.4 x := by
  apply le_calculateDistance _ _ _ _ _ hx _ (by norm_num; exact hL30)
  have e1 : ((-55.0 : ℝ) - x) / (10.0 * 2.4) = (-55 - x) / 24 := by norm_num
  show L ≤ (10.0 : ℝ) ^ (((-55.0 : ℝ) - x) / (10.0 * 2.4))
  rw [e1]
  have e2 : (10.0 : ℝ) = 10 := by norm_num
  rw [e2]
  exact le_trans (le_rpow_ten p q hq h)
    (Real.rpow_le_rpow_of_exponent_le (by norm_num) he)

/-- With the firmware defaults and the real power function: if the exponent `(-55 - x)/24` is
at most `p/q` and `10^p ≤ U^q`, then `calculateDistance(x) ≤ U`. -/
theorem scenario_upper {x U : ℝ} (p q : Nat) (hq : 0 < q) (hx : x < 0) (hU : 0.1 ≤ U)
    (he : (-55 - x) / 24 ≤ (p : ℝ) / (q : ℝ)) (h : (10 : ℝ) ^ p ≤ U ^ q) :
    calculateDistance (fun b e : ℝ => b ^ e) (-55.0) 2.4 x ≤ U := by
  apply calculateDistance_le _ _ _ _ _ hx _ hU
  have e1 : ((-55.0 : ℝ) - x) / (10.0 * 2.4) = (-55 - x) / 24 := by norm_num
  show (10.0 : ℝ) ^ (((-55.0 : ℝ) - x) / (10.0 * 2.4)) ≤ U
  rw [e1]
  have e2 : (10.0 : ℝ) = 10 := by norm_num
  rw [e2]
  exact le_trans (Real.rpow_le_rpow_of_exponent_le (by norm_num) he)
    (rpow_ten_le (le_trans (by norm_num) hU) p q hq h)

/-- The fields of the state after a Connected tick that reads the non-zero sample `s` for the
peer handle 1. -/
theorem tick_fields {α : Type} [LinearOrderedField α] [FloorRing α] (pow : α → α → α)
    (sin : α → α) (st : State α) (s : Int) (hc : st.deviceConnected = true) (h0 : s ≠ 0) :
    (loop pow sin st [1] (fun _ => some s)).1.deviceConnected = true ∧
      (loop pow sin st [1] (fun _ => some s)).1.measuredPower = st.measuredPower ∧
      (loop pow sin st [1] (fun _ => some s)).1.pathLossExponent = st.pathLossExponent ∧
      (loop pow sin st [1] (fun _ => some s)).1.rssiFilter = (st.rssiFilter.update (s : α)).2 ∧
      (loop pow sin st [1] (fun _ => some s)).1.distFilter =
        (st.distFilter.update (calculateDistance pow st.measuredPower st.pathLossExponent
          (st.rssiFilter.update (s : α)).1)).2 := by
  rw [loop_connected_state pow sin st [1] (fun _ => some s) s hc rfl h0]
  exact ⟨hc, rfl, rfl, rfl, rfl⟩

/-- One update of a filter with the distance filter's noise parameters, with the gain `K` and
the new covariance `P1` named. -/
theorem distFilter_step (P0 K P1 X m : ℝ) (hK : (P0 + 0.01) / (P0 + 0.01 + 0.3) = K)
    (hP : (1 - K) * (P0 + 0.01) = P1) :
    ((KalmanFilter.mk 0.01 0.3 P0 X).update m).2 = KalmanFilter.mk 0.01 0.3 P1 (X + K * (m - X)) := by
  subst hK hP
  rfl

/-- One update of a filter with the signal filter's noise parameters, with the new covariance
`P1` and the new estimate `X1` named. -/
theorem rssiFilter_step (P0 X0 m P1 X1 : ℝ)
    (hX : X0 + (P0 + 0.02) / (P0 + 0.02 + 4.0) * (m - X0) = X1)
    (hP : (1 - (P0 + 0.02) / (P0 + 0.02 + 4.0)) * (P0 + 0.02) = P1) :
    (KalmanFilter.mk 0.02 4.0 P0 X0).update m = (X1, KalmanFilter.mk 0.02 4.0 P1 X1) := by
  subst hX hP
  rfl

/-- C11: end-to-end scenario.  Starting Connected with reference strength -55, path-loss
exponent 2.4 and the default smoothers, the raw samples -50, -52, -51, -90, -30 on five
consecutive ticks give smoothed distances `d1 .. d5` (real power function) with
`d1 > d2 > d3`, then `d4 > d3`, then `d5 < d4`, every one of them in `[0.1, 30.0]`. -/
theorem end_to_end_scenario :
    scenarioDistance (fun b e : ℝ => b ^ e) Real.sin 1 >
        scenarioDistance (fun b e : ℝ => b ^ e) Real.sin 2 ∧
      scenarioDistance (fun b e : ℝ => b ^ e) Real.sin 2 >
        scenarioDistance (fun b e : ℝ => b ^ e) Real.sin 3 ∧
      scenarioDistance (fun b e : ℝ => b ^ e) Real.sin 4 >
        scenarioDistance (fun b e : ℝ => b ^ e) Real.sin 3 ∧
      scenarioDistance (fun b e : ℝ => b ^ e) Real.sin 5 <
        scenarioDistance (fun b e : ℝ => b ^ e) Real.sin 4 ∧
      (0.1 ≤ scenarioDistance (fun b e : ℝ => b ^ e) Real.sin 1 ∧
        scenarioDistance (fun b e : ℝ => b ^ e) Real.sin 1 ≤ 30.0) ∧
      (0.1 ≤ scenarioDistance (fun b e : ℝ => b ^ e) Real.sin 2 ∧
        scenarioDistance (fun b e : ℝ => b ^ e) Real.sin 2 ≤ 30.0) ∧
      (0.1 ≤ scenarioDistance (fun b e : ℝ => b ^ e) Real.sin 3 ∧
        scenarioDistance (fun b e : ℝ => b ^ e) Real.sin 3 ≤ 30.0) ∧
      (0.1 ≤ scenarioDistance (fun b e : ℝ => b ^ e) Real.sin 4 ∧
        scenarioDistance (fun b e : ℝ => b ^ e) Real.sin 4 ≤ 30.0) ∧
      (0.1 ≤ scenarioDistance (fun b e : ℝ => b ^ e) Real.sin 5 ∧
        scenarioDistance (fun b e : ℝ => b ^ e) Real.sin 5 ≤ 30.0) := by
  have c0 : (onConnect (powerUp : State ℝ)).1.deviceConnected = true := rfl
  have hR0 : (onConnect (powerUp : State ℝ)).1.rssiFilter =
      KalmanFilter.mk 0.02 4.0 1.0 (-60.0) := rfl
  have hD0 : (onConnect (powerUp : State ℝ)).1.distFilter =
      KalmanFilter.mk 0.01 0.3 1.0 1.0 := rfl
  have m0 : (onConnect (powerUp : State ℝ)).1.measuredPower = -55.0 := rfl
  have n0 : (onConnect (powerUp : State ℝ)).1.pathLossExponent = 2.4 := rfl
  -- tick 1: sample -50
  obtain ⟨c1, m1, n1, r1, d1⟩ :=
    tick_fields (fun b e : ℝ => b ^ e) Real.sin _ (-50) c0 (by decide)
  rw [m0] at m1
  rw [n0] at n1
  have u1 : (KalmanFilter.mk 0.02 4.0 1.0 (-60.0)).update (((-50 : Int) : ℝ)) =
      ((-14550 / 251), KalmanFilter.mk 0.02 4.0 (204 / 251) (-14550 / 251)) :=
    rssiFilter_step _ _ _ _ _ (by norm_num) (by norm_num)
  rw [hR0, u1] at r1
  rw [hR0, u1, hD0, m0, n0] at d1
  dsimp only at r1 d1
  have hR1 := r1
  have b1 := calculateDistance_bounds (fun b e : ℝ => b ^ e) (-55.0) 2.4 (-14550 / 251)
  have lo1 : (1.3 : ℝ) ≤ calculateDistance (fun b e : ℝ => b ^ e) (-55.0) 2.4 (-14550 / 251) :=
    scenario_lower 3 25 (by norm_num) (by norm_num) (by norm_num) (by norm_num) (by norm_num)
  have up1 : calculateDistance (fun b e : ℝ => b ^ e) (-55.0) 2.4 (-14550 / 251) ≤ (1.34 : ℝ) :=
    scenario_upper 1 8 (by norm_num) (by norm_num) (by norm_num) (by norm_num) (by norm_num)
  obtain ⟨a1, ha1⟩ : ∃ a : ℝ, a = calculateDistance (fun b e : ℝ => b ^ e) (-55.0) 2.4 (-14550 / 251) :=
    ⟨_, rfl⟩
  rw [← ha1] at d1 b1 lo1 up1
  have hD1 : (loop (fun b e : ℝ => b ^ e) Real.sin (onConnect (powerUp : State ℝ)).1
      [1] (fun _ => some (-50))).1.distFilter =
      KalmanFilter.mk 0.01 0.3 (303 / 1310) (1.0 + (101 / 131) * (a1 - 1.0)) := by
    rw [d1]
    exact distFilter_step _ _ _ _ _ (by norm_num) (by norm_num)
  obtain ⟨X1, hX1⟩ : ∃ X : ℝ, X = 1.0 + (101 / 131) * (a1 - 1.0) := ⟨_, rfl⟩
  rw [← hX1] at hD1
  have e1 : scenarioDistance (fun b e : ℝ => b ^ e) Real.sin 1 = X1 := by
    show (loop (fun b e : ℝ => b ^ e) Real.sin (onConnect (powerUp : State ℝ)).1
      [1] (fun _ => some (-50))).1.distFilter.getValue = X1
    rw [hD1]
    rfl
  -- tick 2: sample -52
  obtain ⟨c2, m2, n2, r2, d2⟩ :=
    tick_fields (fun b e : ℝ => b ^ e) Real.sin _ (-52) c1 (by decide)
  rw [m1] at m2
  rw [n1] at n2
  have u2 : (KalmanFilter.mk 0.02 4.0 (204 / 251) (-14550 / 251)).update (((-52 : Int) : ℝ)) =
      ((-3453452 / 60651), KalmanFilter.mk 0.02 4.0 (41804 / 60651) (-3453452 / 60651)) :=
    rssiFilter_step _ _ _ _ _ (by norm_num) (by norm_num)
  rw [hR1, u2] at r2
  rw [hR1, u2, hD1, m1, n1] at d2
  dsimp only at r2 d2
  have hR2 := r2
  have b2 := calculateDistance_bounds (fun b e : ℝ => b ^ e) (-55.0) 2.4 (-3453452 / 60651)
  have lo2 : (1.2 : ℝ) ≤ calculateDistance (fun b e : ℝ => b ^ e) (-55.0) 2.4 (-3453452 / 60651) :=
    scenario_lower 2 25 (by norm_num) (by norm_num) (by norm_num) (by norm_num) (by norm_num)
  have up2 : calculateDistance (fun b e : ℝ => b ^ e) (-55.0) 2.4 (-3453452 / 60651) ≤ (1.22 : ℝ) :=
    scenario_upper 1 12 (by norm_num) (by norm_num) (by norm_num) (by norm_num) (by norm_num)
  obtain ⟨a2, ha2⟩ : ∃ a : ℝ, a = calculateDistance (fun b e : ℝ => b ^ e) (-55.0) 2.4 (-3453452 / 60651) :=
    ⟨_, rfl⟩
  rw [← ha2] at d2 b2 lo2 up2
  have hD2 : (loop (fun b e : ℝ => b ^ e) Real.sin (loop (fun b e : ℝ => b ^ e) Real.sin (onConnect (powerUp : State ℝ)).1
      [1] (fun _ => some (-50))).1
      [1] (fun _ => some (-52))).1.distFilter =
      KalmanFilter.mk 0.01 0.3 (9483 / 70910) (X1 + (3161 / 7091) * (a2 - X1)) := by
    rw [d2]
    exact distFilter_step _ _ _ _ _ (by norm_num) (by norm_num)
  obtain ⟨X2, hX2⟩ : ∃ X : ℝ, X = X1 + (3161 / 7091) * (a2 - X1) := ⟨_, rfl⟩
  rw [← hX2] at hD2
  have e2 : scenarioDistance (fun b e : ℝ => b ^ e) Real.sin 2 = X2 := by
    show (loop (fun b e : ℝ => b ^ e) Real.sin (loop (fun b e : ℝ => b ^ e) Real.sin (onConnect (powerUp : State ℝ)).1
      [1] (fun _ => some (-50))).1
      [1] (fun _ => some (-52))).1.distFilter.getValue = X2
    rw [hD2]
    rfl
  -- tick 3: sample -51
  obtain ⟨c3, m3, n3, r3, d3⟩ :=
    tick_fields (fun b e : ℝ => b ^ e) Real.sin _ (-51) c2 (by decide)
  rw [m2] at m3
  rw [n2] at n3
  have u3 : (KalmanFilter.mk 0.02 4.0 (41804 / 60651) (-3453452 / 60651)).update (((-51 : Int) : ℝ)) =
      ((-800383801 / 14281051), KalmanFilter.mk 0.02 4.0 (8603404 / 14281051) (-800383801 / 14281051)) :=
    rssiFilter_step _ _ _ _ _ (by norm_num) (by norm_num)
  rw [hR2, u3] at r3
  rw [hR2, u3, hD2, m2, n2] at d3
  dsimp only at r3 d3
  have hR3 := r3
  have b3 := calculateDistance_bounds (fun b e : ℝ => b ^ e) (-55.0) 2.4 (-800383801 / 14281051)
  have lo3 : (1.1 : ℝ) ≤ calculateDistance (fun b e : ℝ => b ^ e) (-55.0) 2.4 (-800383801 / 14281051) :=
    scenario_lower 1 24 (by norm_num) (by norm_num) (by norm_num) (by norm_num) (by norm_num)
  have up3 : calculateDistance (fun b e : ℝ => b ^ e) (-55.0) 2.4 (-800383801 / 14281051) ≤ (1.13 : ℝ) :=
    scenario_upper 1 20 (by norm_num) (by norm_num) (by norm_num) (by norm_num) (by norm_num)
  obtain ⟨a3, ha3⟩ : ∃ a : ℝ, a = calculateDistance (fun b e : ℝ => b ^ e) (-55.0) 2.4 (-800383801 / 14281051) :=
    ⟨_, rfl⟩
  rw [← ha3] at d3 b3 lo3 up3
  have hD3 : (loop (fun b e : ℝ => b ^ e) Real.sin (loop (fun b e : ℝ => b ^ e) Real.sin (loop (fun b e : ℝ => b ^ e) Real.sin (onConnect (powerUp : State ℝ)).1
      [1] (fun _ => some (-50))).1
      [1] (fun _ => some (-52))).1
      [1] (fun _ => some (-51))).1.distFilter =
      KalmanFilter.mk 0.01 0.3 (305763 / 3146510) (X2 + (101921 / 314651) * (a3 - X2)) := by
    rw [d3]
    exact distFilter_step _ _ _ _ _ (by norm_num) (by norm_num)
  obtain ⟨X3, hX3⟩ : ∃ X : ℝ, X = X2 + (101921 / 314651) * (a3 - X2) := ⟨_, rfl⟩
  rw [← hX3] at hD3
  have e3 : scenarioDistance (fun b e : ℝ => b ^ e) Real.sin 3 = X3 := by
    show (loop (fun b e : ℝ => b ^ e) Real.sin (loop (fun b e : ℝ => b ^ e) Real.sin (loop (fun b e : ℝ => b ^ e) Real.sin (onConnect (powerUp : State ℝ)).1
      [1] (fun _ => some (-50))).1
      [1] (fun _ => some (-52))).1
      [1] (fun _ => some (-51))).1.distFilter.getValue = X3
    rw [hD3]
    rfl
  -- tick 4: sample -90
  obtain ⟨c4, m4, n4, r4, d4⟩ :=
    tick_fields (fun b e : ℝ => b ^ e) Real.sin _ (-90) c3 (by decide)
  rw [m3] at m4
  rw [n3] at n4
  have u4 : (KalmanFilter.mk 0.02 4.0 (8603404 / 14281051) (-800383801 / 14281051)).update (((-90 : Int) : ℝ)) =
      ((-200077372790 / 3300661451), KalmanFilter.mk 0.02 4.0 (1777805004 / 3300661451) (-200077372790 / 3300661451)) :=
    rssiFilter_step _ _ _ _ _ (by norm_num) (by norm_num)
  rw [hR3, u4] at r4
  rw [hR3, u4, hD3, m3, n3] at d4
  dsimp only at r4 d4
  have hR4 := r4
  have b4 := calculateDistance_bounds (fun b e : ℝ => b ^ e) (-55.0) 2.4 (-200077372790 / 3300661451)
  have lo4 : (1.7 : ℝ) ≤ calculateDistance (fun b e : ℝ => b ^ e) (-55.0) 2.4 (-200077372790 / 3300661451) :=
    scenario_lower 7 30 (by norm_num) (by norm_num) (by norm_num) (by norm_num) (by norm_num)
  obtain ⟨a4, ha4⟩ : ∃ a : ℝ, a = calculateDistance (fun b e : ℝ => b ^ e) (-55.0) 2.4 (-200077372790 / 3300661451) :=
    ⟨_, rfl⟩
  rw [← ha4] at d4 b4 lo4
  have hD4 : (loop (fun b e : ℝ => b ^ e) Real.sin (loop (fun b e : ℝ => b ^ e) Real.sin (loop (fun b e : ℝ => b ^ e) Real.sin (loop (fun b e : ℝ => b ^ e) Real.sin (onConnect (powerUp : State ℝ)).1
      [1] (fun _ => some (-50))).1
      [1] (fun _ => some (-52))).1
      [1] (fun _ => some (-51))).1
      [1] (fun _ => some (-90))).1.distFilter =
      KalmanFilter.mk 0.01 0.3 (10116843 / 128118110) (X3 + (3372281 / 12811811) * (a4 - X3)) := by
    rw [d4]
    exact distFilter_step _ _ _ _ _ (by norm_num) (by norm_num)
  obtain ⟨X4, hX4⟩ : ∃ X : ℝ, X = X3 + (3372281 / 12811811) * (a4 - X3) := ⟨_, rfl⟩
  rw [← hX4] at hD4
  have e4 : scenarioDistance (fun b e : ℝ => b ^ e) Real.sin 4 = X4 := by
    show (loop (fun b e : ℝ => b ^ e) Real.sin (loop (fun b e : ℝ => b ^ e) Real.sin (loop (fun b e : ℝ => b ^ e) Real.sin (loop (fun b e : ℝ => b ^ e) Real.sin (onConnect (powerUp : State ℝ)).1
      [1] (fun _ => some (-50))).1
      [1] (fun _ => some (-52))).1
      [1] (fun _ => some (-51))).1
      [1] (fun _ => some (-90))).1.distFilter.getValue = X4
    rw [hD4]
    rfl
  -- tick 5: sample -30
  obtain ⟨c5, m5, n5, r5, d5⟩ :=
    tick_fields (fun b e : ℝ => b ^ e) Real.sin _ (-30) c4 (by decide)
  rw [m4] at m5
  rw [n4] at n5
  have u5 : (KalmanFilter.mk 0.02 4.0 (1777805004 / 3300661451) (-200077372790 / 3300661451)).update (((-30 : Int) : ℝ)) =
      ((-42781201907530 / 752323201851), KalmanFilter.mk 0.02 4.0 (368763646604 / 752323201851) (-42781201907530 / 752323201851)) :=
    rssiFilter_step _ _ _ _ _ (by norm_num) (by norm_num)
  rw [hR4, u5] at r5
  rw [hR4, u5, hD4, m4, n4] at d5
  dsimp only at r5 d5
  have hR5 := r5
  have b5 := calculateDistance_bounds (fun b e : ℝ => b ^ e) (-55.0) 2.4 (-42781201907530 / 752323201851)
  have up5 : calculateDistance (fun b e : ℝ => b ^ e) (-55.0) 2.4 (-42781201907530 / 752323201851) ≤ (1.22 : ℝ) :=
    scenario_upper 1 12 (by norm_num) (by norm_num) (by norm_num) (by norm_num) (by norm_num)
  obtain ⟨a5, ha5⟩ : ∃ a : ℝ, a = calculateDistance (fun b e : ℝ => b ^ e) (-55.0) 2.4 (-42781201907530 / 752323201851) :=
    ⟨_, rfl⟩
  rw [← ha5] at d5 b5 up5
  have hD5 : (loop (fun b e : ℝ => b ^ e) Real.sin (loop (fun b e : ℝ => b ^ e) Real.sin (loop (fun b e : ℝ => b ^ e) Real.sin (loop (fun b e : ℝ => b ^ e) Real.sin (loop (fun b e : ℝ => b ^ e) Real.sin (onConnect (powerUp : State ℝ)).1
      [1] (fun _ => some (-50))).1
      [1] (fun _ => some (-52))).1
      [1] (fun _ => some (-51))).1
      [1] (fun _ => some (-90))).1
      [1] (fun _ => some (-30))).1.distFilter =
      KalmanFilter.mk 0.01 0.3 (341940723 / 4983345710) (X4 + (113980241 / 498334571) * (a5 - X4)) := by
    rw [d5]
    exact distFilter_step _ _ _ _ _ (by norm_num) (by norm_num)
  obtain ⟨X5, hX5⟩ : ∃ X : ℝ, X = X4 + (113980241 / 498334571) * (a5 - X4) := ⟨_, rfl⟩
  rw [← hX5] at hD5
  have e5 : scenarioDistance (fun b e : ℝ => b ^ e) Real.sin 5 = X5 := by
    show (loop (fun b e : ℝ => b ^ e) Real.sin (loop (fun b e : ℝ => b ^ e) Real.sin (loop (fun b e : ℝ => b ^ e) Real.sin (loop (fun b e : ℝ => b ^ e) Real.sin (loop (fun b e : ℝ => b ^ e) Real.sin (onConnect (powerUp : State ℝ)).1
      [1] (fun _ => some (-50))).1
      [1] (fun _ => some (-52))).1
      [1] (fun _ => some (-51))).1
      [1] (fun _ => some (-90))).1
      [1] (fun _ => some (-30))).1.distFilter.getValue = X5
    rw [hD5]
    rfl
  rw [e1, e2, e3, e4, e5]
  clear e1 e2 e3 e4 e5 hD1 hD2 hD3 hD4 hD5 d1 d2 d3 d4 d5 hR1 hR2 hR3 hR4 hR5
  clear r1 r2 r3 r4 r5 c1 c2 c3 c4 c5 m1 m2 m3 m4 m5 n1 n2 n3 n4 n5 u1 u2 u3 u4 u5
  clear ha1 ha2 ha3 ha4 ha5 c0 hR0 hD0 m0 n0
  norm_num at hX1 hX2 hX3 hX4 hX5 b1 b2 b3 b4 b5 lo1 lo2 lo3 lo4 up1 up2 up3 up5 ⊢
  refine ⟨?_, ?_, ?_, ?_, ⟨?_, ?_⟩, ⟨?_, ?_⟩, ⟨?_, ?_⟩, ⟨?_, ?_⟩, ⟨?_, ?_⟩⟩ <;> linarith

end Scenario

end ESPTag
